import Mathlib

/-!
# A shallow embedding of `fs.c` (FAT-style file system over a block device)

The C globals (`fatTable`, `directory_entry_table`, `file_descriptors`,
`fd_count`, `block_bitmap`) and the virtual disk become the fields of one
record `FS`, which every operation takes and returns.  C arrays are total
maps `Nat → α`; an array write is `setAt`.  Machine integers are `Nat`/`Int`
with an explicit reduction where the C type is narrower than the value
(`uint16_t` fields: `% 65536`, `unsigned int`: `% 2 ^ 32`, `size_t`:
`% 2 ^ 64`, conversion to `int`: `toInt32`).
-/

namespace FileSystem

/-! ## Constants -/

/-- Modelled from the spec: `BLOCK_SIZE` of the absent `disk.h` (4096, the
value the comment at the top of `fs.c` gives). -/
def BLOCK_SIZE : Nat := 4096

/-- Modelled from the spec: `DISK_BLOCKS` of the absent `disk.h` (8192, the
value the comment at the top of `fs.c` gives). -/
def DISK_BLOCKS : Nat := 8192

/-- The macro `MAX_SIZE`, `1024*1024`. -/
def MAX_SIZE : Nat := 1024 * 1024

/-- The constant `CHAR_BIT` of `limits.h`. -/
def CHAR_BIT : Nat := 8

/-! ## Data model -/

/-- The record `struct supaBlock`. -/
structure supaBlock where
  used_block_bitmap_count : Nat
  used_block_bitmap_offset : Nat
  fat_blocks : Nat
  fat_index : Nat
  dir_blocks : Nat
  dir_index : Nat

/-- The record `struct FAT`; `fileSize`, `blocks` and the entries of
`single_out_offset` are `uint16_t`.  The C array `single_out_offset` has 512
entries; the map is total, indices from 512 on are outside the array. -/
structure FAT where
  file_type : Nat
  dir_offset : Nat
  single_out_offset : Nat → Nat
  fileSize : Nat
  blocks : Nat

/-- The record `struct directory_entry`; `name` is the C string held in
`char name[15]`, as the `String` whose UTF-8 bytes it holds (a name of 15
bytes, which `fs_create` accepts, has its terminator one byte past the array),
`ref_count` is an `int`. -/
structure directory_entry where
  occupodo : Bool
  fatNum : Nat
  name : String
  ref_count : Int

/-- The record `struct fd`; `offset` is an `unsigned int`. -/
structure fd where
  occupodo : Bool
  fatNum : Nat
  offset : Nat

/-- Modelled from the spec: the block device of the absent `disk.c`.  Every
block holds `BLOCK_SIZE` bytes (`data b i` is byte `i` of block `b`, as
`fs_read` and `fs_write` see it); next to the bytes the device keeps, as typed
images, what `make_fs`/`umount_fs` stored in blocks 0 to 3 through the casts
`(char *) supaBlock`, `(char *) block_bitmap`, `(char *) fatTable` and
`(char *) directory_entry_table`.  The images are kept apart from `data`: the
byte view of the four metadata blocks is not derived from them. -/
structure Disk where
  super : supaBlock
  bitmapImg : Nat → Nat
  fatImg : Nat → FAT
  dirImg : Nat → directory_entry
  data : Nat → Nat → Nat

/-- The mounted file system: the global variables of `fs.c` and the disk. -/
structure FS where
  supaBlock : supaBlock
  fatTable : Nat → FAT
  directory_entry_table : Nat → directory_entry
  file_descriptors : Nat → fd
  fd_count : Int
  block_bitmap : Nat → Nat
  disk : Disk

/-- The array write `a[i] = v`. -/
def setAt {α : Type} (a : Nat → α) (i : Nat) (v : α) : Nat → α :=
  fun j => if j = i then v else a j

/-- Conversion of an unsigned value to `int` (two's complement, 32 bits). -/
def toInt32 (n : Nat) : Int :=
  if n % 2 ^ 32 < 2 ^ 31 then ((n % 2 ^ 32 : Nat) : Int)
  else ((n % 2 ^ 32 : Nat) : Int) - 2 ^ 32

/-- A `for (i = start; i < start + fuel; i++) if (p i) break;` scan: the
first index from `start` on that satisfies `p`, or `start + fuel`. -/
def scanFrom (p : Nat → Bool) : Nat → Nat → Nat
  | 0, i => i
  | k + 1, i => if p i then i else scanFrom p k (i + 1)

/-! ## Helper functions of `fs.c` -/

/-- The helper `get_bit`. -/
def get_bit (bitmap : Nat → Nat) (block : Nat) : Bool :=
  let idx := block / CHAR_BIT
  let block_idx := block % CHAR_BIT
  decide (bitmap idx &&& (1 <<< block_idx) ≠ 0)

/-- The helper `set_bit`. -/
def set_bit (bitmap : Nat → Nat) (block : Nat) : Nat → Nat :=
  let idx := block / CHAR_BIT
  let block_idx := block % CHAR_BIT
  setAt bitmap idx ((bitmap idx ||| (1 <<< block_idx)) % 256)

/-- The helper `clear_bit`; `~(1 << block_idx)` truncated to the byte is
`255 - (1 << block_idx)`. -/
def clear_bit (bitmap : Nat → Nat) (block : Nat) : Nat → Nat :=
  let idx := block / CHAR_BIT
  let block_idx := block % CHAR_BIT
  setAt bitmap idx (bitmap idx &&& (255 - (1 <<< block_idx)))

/-! ## The block device -/

/-- Modelled from the spec: `block_read(block, buf)` of the absent `disk.c`;
it fails for a block index outside `[0, DISK_BLOCKS)` and otherwise yields the
block's bytes. -/
def block_read (d : Disk) (block : Nat) : Option (Nat → Nat) :=
  if block < DISK_BLOCKS then some (d.data block) else none

/-- Modelled from the spec: `block_write(block, buf)` of the absent `disk.c`;
it fails for a block index outside `[0, DISK_BLOCKS)` and otherwise replaces
the block's bytes. -/
def block_write (d : Disk) (block : Nat) (buf : Nat → Nat) : Option Disk :=
  if block < DISK_BLOCKS then some { d with data := setAt d.data block buf } else none

/-! ## Management routines -/

/-- The zeroed `struct FAT` that `calloc` yields. -/
def zeroFAT : FAT :=
  { file_type := 0, dir_offset := 0, single_out_offset := fun _ => 0, fileSize := 0, blocks := 0 }

/-- The zeroed `struct directory_entry` that `calloc` yields. -/
def zeroDir : directory_entry :=
  { occupodo := false, fatNum := 0, name := "", ref_count := 0 }

/-- The zeroed `struct fd` that `calloc` yields. -/
def zeroFd : fd :=
  { occupodo := false, fatNum := 0, offset := 0 }

/-- What one `block_write`/`block_read` pair carries of the FAT table: the
first 4096 bytes of the array of 64 records of 1032 bytes each (516 `uint16_t`
words: `file_type`, `dir_offset`, 512 entries, `fileSize`, `blocks`), read
back into a zeroed table.  Records 0, 1 and 2 fit, record 3 keeps its first
500 words, the rest stays zero. -/
def fatBlockImage (t : Nat → FAT) : Nat → FAT :=
  fun r =>
    if r < 3 then t r
    else if r = 3 then
      { file_type := (t 3).file_type, dir_offset := (t 3).dir_offset,
        single_out_offset := fun j => if j < 498 then (t 3).single_out_offset j else 0,
        fileSize := 0, blocks := 0 }
    else zeroFAT

/-- The routine `make_fs`: the disk it leaves behind.  The bytes of the data
blocks of the new disk are `bytes` (what `make_disk` left there). -/
def make_fs (bytes : Nat → Nat → Nat) : Disk :=
  let sb : supaBlock :=
    { used_block_bitmap_count := 1, used_block_bitmap_offset := 1,
      fat_blocks := 1, fat_index := 2, dir_blocks := 1, dir_index := 3 }
  let fatTable : Nat → FAT := fun _ => { zeroFAT with fileSize := 0, blocks := 0 }
  let directory_entry_table : Nat → directory_entry :=
    fun i => { zeroDir with occupodo := false, ref_count := 0, fatNum := i }
  let block_bitmap : Nat → Nat :=
    set_bit (set_bit (set_bit (set_bit (fun _ => 0) 0) 1) 2) 3
  { super := sb, bitmapImg := block_bitmap, fatImg := fatBlockImage fatTable,
    dirImg := directory_entry_table, data := bytes }

/-- The routine `mount_fs` (with the device reads succeeding): the tables are
loaded from the disk, every descriptor is cleared, and the global `fd_count`
keeps the value it had (`mount_fs` does not assign it). -/
def mount_fs (fd_count : Int) (d : Disk) : FS :=
  { supaBlock := d.super,
    fatTable := d.fatImg,
    directory_entry_table := d.dirImg,
    file_descriptors := fun _ => { zeroFd with occupodo := false, offset := 0 },
    fd_count := fd_count,
    block_bitmap := d.bitmapImg,
    disk := d }

/-- The routine `umount_fs` (with the device writes succeeding): the disk it
leaves behind.  One `block_write` carries 4096 bytes, so of the FAT table only
`fatBlockImage` reaches the disk. -/
def umount_fs (s : FS) : Disk :=
  { super := s.supaBlock, bitmapImg := s.block_bitmap, fatImg := fatBlockImage s.fatTable,
    dirImg := s.directory_entry_table, data := s.disk.data }

/-- A freshly formatted and mounted file system in a fresh process
(`int fd_count = 0;`), on a disk whose blocks are all zero. -/
def freshFS : FS := mount_fs 0 (make_fs (fun _ _ => 0))

/-! ## Directory and descriptor routines -/

/-- The test `fildes < 0 || fildes >= 32 || !file_descriptors[fildes].occupodo`
that opens `fs_close`, `fs_read`, `fs_write`, `fs_get_filesize`, `fs_lseek`
and `fs_truncate`. -/
def badFd (s : FS) (fildes : Int) : Bool :=
  decide (fildes < 0) || decide (fildes ≥ 32) || !(s.file_descriptors fildes.toNat).occupodo

/-- The loop of `fs_open`, `fs_create` and `fs_delete` that looks a name up:
the first `i < 64` whose entry is occupied and carries `name`, or 64. -/
def findName (s : FS) (name : String) : Nat :=
  scanFrom (fun i => (s.directory_entry_table i).occupodo
    && decide (name = (s.directory_entry_table i).name)) 64 0

/-- The routine `fs_open`. -/
def fs_open (s : FS) (name : String) : Int × FS :=
  let file_count := findName s name
  if file_count = 64 then (-1, s)
  else if s.fd_count ≥ 32 then (-1, s)
  else
    let curr_fd := scanFrom (fun i => !(s.file_descriptors i).occupodo) 32 0
    if curr_fd = 32 then (-1, s)
    else
      let d : fd :=
        { occupodo := true, fatNum := (s.directory_entry_table file_count).fatNum, offset := 0 }
      let e := s.directory_entry_table curr_fd
      ((curr_fd : Int),
        { s with
          file_descriptors := setAt s.file_descriptors curr_fd d,
          directory_entry_table :=
            setAt s.directory_entry_table curr_fd { e with ref_count := e.ref_count + 1 },
          fd_count := s.fd_count + 1 })

/-- The loop of `fs_close`: 64 rounds, each comparing and decrementing at the
index `fildes` (the loop variable `i` is not used in the body). -/
def closeLoop (fdt : Nat → fd) (fildes : Nat) :
    Nat → (Nat → directory_entry) → (Nat → directory_entry)
  | 0, dir => dir
  | k + 1, dir =>
    if (fdt fildes).fatNum = (dir fildes).fatNum then
      closeLoop fdt fildes k
        (setAt dir fildes { dir fildes with ref_count := (dir fildes).ref_count - 1 })
    else closeLoop fdt fildes k dir

/-- The routine `fs_close`. -/
def fs_close (s : FS) (fildes : Int) : Int × FS :=
  if badFd s fildes then (-1, s)
  else
    let f := fildes.toNat
    let fdt := setAt s.file_descriptors f { s.file_descriptors f with occupodo := false }
    (0, { s with
          file_descriptors := fdt,
          fd_count := s.fd_count - 1,
          directory_entry_table := closeLoop fdt f 64 s.directory_entry_table })

/-- The library function `strlen` on a file name: a `String` stands for the C
string made of the bytes of its UTF-8 encoding (a file name holds no NUL
character), so `strlen` counts bytes, not characters. -/
def strlen (name : String) : Nat := name.utf8ByteSize

/-- The routine `fs_create`. -/
def fs_create (s : FS) (name : String) : Int × FS :=
  if strlen name > 15 then (-1, s)
  else if findName s name ≠ 64 then (-1, s)
  else
    let idx := scanFrom (fun i => !(s.directory_entry_table i).occupodo) 64 0
    if idx = 64 then (-1, s)
    else
      (0, { s with
            directory_entry_table :=
              setAt s.directory_entry_table idx
                { s.directory_entry_table idx with name := name, occupodo := true } })

/-- The routine `fs_delete`. -/
def fs_delete (s : FS) (name : String) : Int × FS :=
  let idx := findName s name
  if idx = 64 then (-1, s)
  else
    let fatNum := (s.directory_entry_table idx).fatNum
    let fd_idx := scanFrom (fun i => (s.file_descriptors i).occupodo
      && decide (fatNum = (s.file_descriptors i).fatNum)) 32 0
    if fd_idx ≠ 32 then (-1, s)
    else
      (0, { s with
            directory_entry_table :=
              setAt s.directory_entry_table idx
                { s.directory_entry_table idx with occupodo := false } })

/-! ## File I/O routines -/

/-- The routine `fs_get_filesize`. -/
def fs_get_filesize (s : FS) (fildes : Int) : Int × FS :=
  if badFd s fildes then (-1, s)
  else
    let f := fildes.toNat
    let i := scanFrom (fun i => decide ((s.directory_entry_table i).fatNum
      = (s.file_descriptors f).fatNum)) 64 0
    if i = 64 then (-1, s)
    else (((s.fatTable (s.directory_entry_table i).fatNum).fileSize : Nat), s)

/-- The routine `fs_lseek`; `offset` is an `off_t`. -/
def fs_lseek (s : FS) (fildes : Int) (offset : Int) : Int × FS :=
  if badFd s fildes then (-1, s)
  else
    let f := fildes.toNat
    let pos := (s.file_descriptors f).fatNum
    if offset > ((s.fatTable pos).fileSize : Nat) ∨ offset < 0 then (-1, s)
    else
      (0, { s with
            file_descriptors :=
              setAt s.file_descriptors f
                { s.file_descriptors f with offset := offset.toNat % 2 ^ 32 } })

/-- The routine `fs_truncate`; `length` is an `off_t`. -/
def fs_truncate (s : FS) (fildes : Int) (length : Int) : Int × FS :=
  if badFd s fildes then (-1, s)
  else if length < 0 ∨ length > ((DISK_BLOCKS * BLOCK_SIZE : Nat) : Int) then (-1, s)
  else
    let f := fildes.toNat
    let fatNum := (s.file_descriptors f).fatNum
    if length > ((s.fatTable fatNum).fileSize : Nat) then (-1, s)
    else
      let fdt :=
        if ((s.file_descriptors f).offset : Int) > length then
          setAt s.file_descriptors f
            { s.file_descriptors f with offset := length.toNat % 2 ^ 32 }
        else s.file_descriptors
      let num_blocks_needed : Nat :=
        length.toNat / BLOCK_SIZE + (if length.toNat % BLOCK_SIZE ≠ 0 then 1 else 0)
      let num_blocks_current : Nat := (s.fatTable fatNum).blocks
      let bitmap :=
        if num_blocks_current > num_blocks_needed then
          clear_bit s.block_bitmap (num_blocks_current - 1)
        else s.block_bitmap
      (0, { s with
            file_descriptors := fdt,
            block_bitmap := bitmap,
            fatTable :=
              setAt s.fatTable fatNum
                { s.fatTable fatNum with
                  blocks := num_blocks_needed % 65536,
                  fileSize := length.toNat % 65536 } })

/-- The loop `while (file_offset > BLOCK_SIZE) { file_offset -= BLOCK_SIZE;
block_idx++; }` of `fs_read` and `fs_write`, as `(file_offset, block_idx)`.
In `fs_write` the loop also keeps `first_block` equal to
`single_out_offset[block_idx]`. -/
def seekBlock : Nat → Nat → Nat → Nat × Nat
  | 0, file_offset, block_idx => (file_offset, block_idx)
  | k + 1, file_offset, block_idx =>
    if file_offset > BLOCK_SIZE then seekBlock k (file_offset - BLOCK_SIZE) (block_idx + 1)
    else (file_offset, block_idx)

/-- The locals that the copy loop of `fs_read` updates: the array `str`,
`bytes_read`, the descriptor's `offset` and `left`. -/
structure ReadVars where
  str : Nat → Nat
  bytes_read : Nat
  offset : Nat
  left : Int

/-- The inner loop `for (int i = file_offset; i < fatTable[fatNum].fileSize; i++)`
of `fs_read`, with `fuel` the number of values of `i` still to come.
`current_block` has `BLOCK_SIZE` bytes: the result is `none` when the loop
reads `current_block[i]` with `i ≥ BLOCK_SIZE`, outside the array. -/
def readFor (current_block : Nat → Nat) : Nat → Nat → ReadVars → Option ReadVars
  | 0, _, v => some v
  | k + 1, i, v =>
    if i < BLOCK_SIZE then
      let v1 : ReadVars :=
        { str := setAt v.str v.bytes_read (current_block i),
          bytes_read := v.bytes_read + 1,
          offset := (v.offset + 1) % 2 ^ 32,
          left := v.left - 1 }
      if v1.left = 0 then some v1 else readFor current_block k (i + 1) v1
    else none

/-- The loop `while (left > 0)` of `fs_read`.  The result is `none` for an
access outside `current_block`, `some (false, v)` when `block_read` fails (the
routine returns -1) and `some (true, v)` when the loop ends. -/
def readLoop (fat : FAT) (d : Disk) :
    Nat → Nat → Nat → Nat → ReadVars → Option (Bool × ReadVars)
  | 0, _, _, _, v => some (true, v)
  | k + 1, first_block, file_offset, block_idx, v =>
    if v.left > 0 then
      match block_read d first_block with
      | none => some (false, v)
      | some current_block =>
        match readFor current_block (fat.fileSize - file_offset) file_offset v with
        | none => none
        | some v1 =>
          if v1.left > 0 ∧ v1.offset ≠ fat.fileSize then
            readLoop fat d k (fat.single_out_offset (block_idx + 1)) 0 (block_idx + 1) v1
          else some (true, v1)
    else some (true, v)

/-- The routine `fs_read`.  The result is `none` when the routine reads
outside `current_block`; otherwise it is the returned `int`, the new state
and the bytes that `memcpy(buf, str, nbyte+1)` stores in `buf` (nothing when
the routine returns -1). -/
def fs_read (s : FS) (fildes : Int) (nbyte : Nat) : Option (Int × FS × List Nat) :=
  if badFd s fildes then some (-1, s, [])
  else
    let f := fildes.toNat
    let fatNum := (s.file_descriptors f).fatNum
    let fat := s.fatTable fatNum
    let nbyte := if nbyte > fat.fileSize then fat.fileSize else nbyte
    let file_offset := (s.file_descriptors f).offset
    if file_offset > fat.fileSize then some (-1, s, [])
    else
      let (file_offset, block_idx) := seekBlock file_offset file_offset 0
      if block_idx > fat.blocks then some (-1, s, [])
      else
        let first_block := fat.single_out_offset block_idx
        let v0 : ReadVars :=
          { str := fun _ => 0, bytes_read := 0,
            offset := (s.file_descriptors f).offset, left := toInt32 nbyte }
        match readLoop fat s.disk (nbyte + 1) first_block file_offset block_idx v0 with
        | none => none
        | some (ok, v) =>
          let s1 : FS :=
            { s with
              file_descriptors :=
                setAt s.file_descriptors f { s.file_descriptors f with offset := v.offset } }
          if ok then
            some ((v.bytes_read : Int), s1,
              (List.range (nbyte + 1)).map (setAt v.str v.bytes_read 0))
          else some (-1, s1, [])

/-- The allocation loop `while (fatTable[fatNum].blocks < num_blocks_needed)`
of `fs_write`: each round takes the first block whose bit is clear, or stops
when there is none.  A round that does not stop sets a clear bit, so
`DISK_BLOCKS + 1` rounds always suffice. -/
def allocLoop (num_blocks_needed : Int) : Nat → FAT → (Nat → Nat) → FAT × (Nat → Nat)
  | 0, fat, bitmap => (fat, bitmap)
  | k + 1, fat, bitmap =>
    if ((fat.blocks : Nat) : Int) < num_blocks_needed then
      let idx := scanFrom (fun i => !get_bit bitmap i) DISK_BLOCKS 0
      if idx = DISK_BLOCKS then (fat, bitmap)
      else
        allocLoop num_blocks_needed k
          { fat with
            single_out_offset := setAt fat.single_out_offset fat.blocks idx,
            blocks := (fat.blocks + 1) % 65536 }
          (set_bit bitmap idx)
    else (fat, bitmap)

/-- The locals that the copy loop of `fs_write` updates: `current_block`,
`bytes_written`, the descriptor's `offset` and `left`. -/
structure WriteVars where
  current_block : Nat → Nat
  bytes_written : Int
  offset : Nat
  left : Int

/-- The inner loop `for (int i = file_offset; i < BLOCK_SIZE; i++)` of
`fs_write`, with `fuel` the number of values of `i` still to come; `buf j` is
the byte `*((char*) buf + j)`. -/
def writeFor (buf : Int → Nat) : Nat → Nat → WriteVars → WriteVars
  | 0, _, v => v
  | k + 1, i, v =>
    let v1 : WriteVars :=
      { current_block := setAt v.current_block i (buf v.bytes_written),
        bytes_written := v.bytes_written + 1,
        offset := (v.offset + 1) % 2 ^ 32,
        left := v.left - 1 }
    if v1.left = 0 then v1 else writeFor buf k (i + 1) v1

/-- The loop `while (left > 0)` of `fs_write`, as `(ok, disk, locals)`; `ok`
is `false` when `block_read` or `block_write` fails (the routine returns -1).
Every round but the first writes at least one byte, so `left + 1` rounds
suffice. -/
def writeLoop (buf : Int → Nat) (fat : FAT) :
    Nat → Nat → Nat → Nat → Disk → WriteVars → Bool × Disk × WriteVars
  | 0, _, _, _, d, v => (true, d, v)
  | k + 1, first_block, file_offset, block_idx, d, v =>
    if v.left > 0 then
      match block_read d first_block with
      | none => (false, d, v)
      | some current_block =>
        let v1 := writeFor buf (BLOCK_SIZE - file_offset) file_offset
          { v with current_block := current_block }
        match block_write d first_block v1.current_block with
        | none => (false, d, v1)
        | some d1 =>
          if v1.left > 0 then
            writeLoop buf fat k (fat.single_out_offset (block_idx + 1)) 0 (block_idx + 1) d1 v1
          else (true, d1, v1)
    else (true, d, v)

/-- The routine `fs_write`.  `nbyte` is a `size_t`.  The local
`int bytes_written;` has no initialiser: its value at entry is the argument
`bytes_written`. -/
def fs_write (s : FS) (fildes : Int) (buf : Int → Nat) (nbyte : Nat) (bytes_written : Int) :
    Int × FS :=
  if badFd s fildes then (-1, s)
  else
    let f := fildes.toNat
    let fatNum := (s.file_descriptors f).fatNum
    let nbyte :=
      if (nbyte + (s.fatTable fatNum).fileSize) % 2 ^ 64 > MAX_SIZE then
        MAX_SIZE - (s.fatTable fatNum).fileSize
      else nbyte
    let num_blocks_needed : Int :=
      toInt32 (nbyte / BLOCK_SIZE) + (if nbyte % BLOCK_SIZE ≠ 0 then 1 else 0)
    let (fat, bitmap) :=
      allocLoop num_blocks_needed (DISK_BLOCKS + 1) (s.fatTable fatNum) s.block_bitmap
    let (file_offset, block_idx) :=
      seekBlock (s.file_descriptors f).offset (s.file_descriptors f).offset 0
    let first_block := fat.single_out_offset block_idx
    let v0 : WriteVars :=
      { current_block := fun _ => 0, bytes_written := bytes_written,
        offset := (s.file_descriptors f).offset, left := toInt32 nbyte }
    let (ok, d, v) :=
      writeLoop buf fat (v0.left.toNat + 1) first_block file_offset block_idx s.disk v0
    let s1 : FS :=
      { s with
        block_bitmap := bitmap,
        disk := d,
        file_descriptors :=
          setAt s.file_descriptors f { s.file_descriptors f with offset := v.offset } }
    if ok then
      (v.bytes_written,
        { s1 with
          fatTable := setAt s.fatTable fatNum { fat with fileSize := (fat.fileSize + nbyte) % 65536 } })
    else (-1, { s1 with fatTable := setAt s.fatTable fatNum fat })

/-! ## States used by the concrete checks -/

/-- The fresh file system after `fs_create("a.txt")` and `fs_open("a.txt")`,
which returns descriptor 0. -/
def openedFS : FS := (fs_open (fs_create freshFS "a.txt").2 "a.txt").2

/-- A run of `fs_create` calls, one per name, as the list of the values
returned and the final state. -/
def createAll : FS → List String → List Int × FS
  | s, [] => ([], s)
  | s, n :: ns =>
    let r := fs_create s n
    let rest := createAll r.2 ns
    (r.1 :: rest.1, rest.2)

/-- A run of `k` calls `fs_open(name)`, as the list of the values returned and
the final state. -/
def openMany : FS → String → Nat → List Int × FS
  | s, _, 0 => ([], s)
  | s, n, k + 1 =>
    let r := fs_open s n
    let rest := openMany r.2 n k
    (r.1 :: rest.1, rest.2)

/-- Sixty-four pairwise distinct one-character file names. -/
def names64 : List String :=
  (List.range 64).map (fun i => String.singleton (Char.ofNat (48 + i)))

/-- The caller's buffer holding the byte `0x41` everywhere. -/
def bufA : Int → Nat := fun _ => 0x41

/-- The caller's buffer whose byte `j` is `j` (for `0 ≤ j < 256`). -/
def bufIota : Int → Nat := fun j => j.toNat % 256

/-- The state `openedFS` after `fs_write(0, buf, 6000)` of 6000 bytes `0x41`,
the local `bytes_written` starting at 0. -/
def wrote6000 : FS := (fs_write openedFS 0 bufA 6000 0).2

/-- The state `openedFS` after `fs_write(0, buf, 5000)` of 5000 bytes `0x41`,
the local `bytes_written` starting at 0. -/
def wrote5000 : FS := (fs_write openedFS 0 bufA 5000 0).2

/-- The fresh file system after `fs_create("x")` and two calls `fs_open("x")`,
which return the descriptors 0 and 1. -/
def openedTwiceFS : FS := (fs_open (fs_open (fs_create freshFS "x").2 "x").2 "x").2

/-- The cursor invariant of the spec: the cursor of every occupied descriptor
is at most the size of the FAT record the descriptor is bound to (a cursor is
an `unsigned int`, so `0 ≤ offset` always holds). -/
def cursorInv (s : FS) : Prop :=
  ∀ f, f < 32 → (s.file_descriptors f).occupodo = true →
    (s.file_descriptors f).offset ≤ (s.fatTable (s.file_descriptors f).fatNum).fileSize

instance (s : FS) : Decidable (cursorInv s) := by
  unfold cursorInv
  infer_instance

/-- A file name of 15 characters: with its terminator it needs 16 bytes. -/
def name15 : String := "abcdefghijklmno"

/-- A file name of 16 characters. -/
def name16 : String := "abcdefghijklmnop"

/-- The caller's buffer holding the byte `0x42` everywhere. -/
def bufB : Int → Nat := fun _ => 0x42

/-- The fresh file system after `fs_create` of `"f0"`, ..., `"f4"` (directory
slots and FAT records 0 to 4). -/
def fiveFiles : FS := (createAll freshFS ["f0", "f1", "f2", "f3", "f4"]).2

/-- The state `fiveFiles` after `fs_open("f4")`, which returns descriptor 0
bound to FAT record 4, and `fs_write(0, buf, 10)`. -/
def wroteF4 : FS := (fs_write (fs_open fiveFiles "f4").2 0 bufA 10 0).2

/-- The state `openedFS` after `fs_write(0, buf, 4096)`: one block, cursor
4096. -/
def wrote4096 : FS := (fs_write openedFS 0 bufA 4096 0).2

/-- The state `wrote4096` after a second `fs_write(0, buf, 4096)`, appended at
cursor 4096. -/
def wrote4096twice : FS := (fs_write wrote4096 0 bufA 4096 0).2

/-- The fresh file system after `fs_create("a")` and `fs_create("b")`
(directory slots 0 and 1). -/
def twoFiles : FS := (createAll freshFS ["a", "b"]).2

/-- The state `twoFiles` after `fs_open("a")` and `fs_open("b")`: descriptor 0
is bound to FAT record 0, descriptor 1 to FAT record 1. -/
def twoOpen : FS := (fs_open (fs_open twoFiles "a").2 "b").2

/-- The state `twoOpen` after `fs_write(0, buf, 20480)` (five blocks: 4, 5, 6,
7, 8) and `fs_lseek(0, 0)`. -/
def fiveBlocks : FS := (fs_lseek (fs_write twoOpen 0 bufA 20480 0).2 0 0).2

/-- The state `fiveBlocks` after `fs_truncate(0, 16384)`. -/
def fiveBlocksCut : FS := (fs_truncate fiveBlocks 0 16384).2

/-- The state `fiveBlocksCut` after `fs_write(1, buf, 1)` of one byte `0x42`
to the empty file `"b"`. -/
def handedTwice : FS := (fs_write fiveBlocksCut 1 bufB 1 0).2

/-- The state after writing 10 bytes to `"a.txt"`, closing it, deleting it, and
`fs_create("b")`, which takes the freed directory slot 0. -/
def reusedSlot : FS :=
  (fs_create (fs_delete (fs_close (fs_write openedFS 0 bufA 10 0).2 0).2 "a.txt").2 "b").2

/-- The bitmap invariant of the spec: the bits of the reserved blocks 0 to 3
are set, and the bit of any other block is set exactly when the block occurs
among the first `blocks` entries of the block list of some FAT record. -/
def bitmapInv (s : FS) : Prop :=
  (∀ i, i < 4 → get_bit s.block_bitmap i = true)
  ∧ (∀ i, i < DISK_BLOCKS → 4 ≤ i →
      (get_bit s.block_bitmap i = true ↔
        ∃ r, r < 64 ∧ ∃ j, j < (s.fatTable r).blocks
          ∧ (s.fatTable r).single_out_offset j = i))

instance (s : FS) : Decidable (bitmapInv s) := by
  unfold bitmapInv
  infer_instance

/-- The number of occupied slots of the descriptor table. -/
def occupiedCount (s : FS) : Nat :=
  (List.range 32).countP (fun i => (s.file_descriptors i).occupodo)

/-- The fresh file system after `fs_create("a.txt")` and 32 calls
`fs_open("a.txt")`. -/
def opened32 : FS := (openMany (fs_create freshFS "a.txt").2 "a.txt" 32).2

/-- The state `opened32` after `umount_fs` and `mount_fs` in the same process:
the global `fd_count` is the one `opened32` left. -/
def remounted32 : FS := mount_fs opened32.fd_count (umount_fs opened32)

/-- The file system formatted and mounted anew by a process that had
unmounted `openedFS` while descriptor 0 was still open: the global `fd_count`
is the one `openedFS` left. -/
def leakedMount : FS := mount_fs openedFS.fd_count (make_fs (fun _ _ => 0))

/-! ## Lemmas on the scans and on the descriptor test -/

theorem scanFrom_ge (p : Nat → Bool) (k i : Nat) : i ≤ scanFrom p k i := by
  induction k generalizing i with
  | zero => simp [scanFrom]
  | succ k ih =>
    unfold scanFrom
    split
    · exact Nat.le_refl i
    · exact Nat.le_trans (Nat.le_succ i) (ih (i + 1))

theorem scanFrom_le (p : Nat → Bool) (k i : Nat) : scanFrom p k i ≤ i + k := by
  induction k generalizing i with
  | zero => simp [scanFrom]
  | succ k ih =>
    unfold scanFrom
    split
    · omega
    · have := ih (i + 1); omega

theorem scanFrom_found (p : Nat → Bool) (k i : Nat) (h : scanFrom p k i < i + k) :
    p (scanFrom p k i) = true := by
  induction k generalizing i with
  | zero => simp [scanFrom] at h
  | succ k ih =>
    unfold scanFrom at h ⊢
    split
    · assumption
    · rename_i hp
      rw [if_neg hp] at h
      exact ih (i + 1) (by omega)

theorem scanFrom_before (p : Nat → Bool) (k i j : Nat) (hij : i ≤ j)
    (hj : j < scanFrom p k i) : p j = false := by
  induction k generalizing i with
  | zero => simp [scanFrom] at hj; omega
  | succ k ih =>
    unfold scanFrom at hj
    split at hj
    · omega
    · rename_i hp
      by_cases hji : j = i
      · subst hji; simpa using hp
      · exact ih (i + 1) (by omega) hj

theorem scanFrom_eq_end (p : Nat → Bool) (k i : Nat) :
    scanFrom p k i = i + k ↔ ∀ j, i ≤ j → j < i + k → p j = false := by
  constructor
  · intro h j hij hj
    exact scanFrom_before p k i j hij (by omega)
  · intro h
    by_contra hne
    have hlt : scanFrom p k i < i + k := by
      have := scanFrom_le p k i; omega
    have h1 := scanFrom_found p k i hlt
    have h2 := h (scanFrom p k i) (scanFrom_ge p k i) hlt
    simp [h1] at h2

theorem scanFrom_eq_of_first (p : Nat → Bool) (k i m : Nat) (him : i ≤ m) (hm : m < i + k)
    (hp : p m = true) (hmin : ∀ j, i ≤ j → j < m → p j = false) : scanFrom p k i = m := by
  have hle : scanFrom p k i ≤ m := by
    by_contra hgt
    have := scanFrom_before p k i m him (by omega)
    simp [hp] at this
  have hlt : scanFrom p k i < i + k := by omega
  have hf := scanFrom_found p k i hlt
  by_contra hne
  have := hmin (scanFrom p k i) (scanFrom_ge p k i) (by omega)
  simp [hf] at this

theorem badFd_eq_true_iff (s : FS) (fildes : Int) :
    badFd s fildes = true ↔
      (fildes < 0 ∨ 32 ≤ fildes ∨ (s.file_descriptors fildes.toNat).occupodo = false) := by
  simp [badFd, or_assoc]

theorem badFd_eq_false_iff (s : FS) (fildes : Int) :
    badFd s fildes = false ↔
      (0 ≤ fildes ∧ fildes < 32 ∧ (s.file_descriptors fildes.toNat).occupodo = true) := by
  simp [badFd, and_assoc]

theorem setAt_same {α : Type} (a : Nat → α) (i : Nat) (v : α) : setAt a i v i = v := by
  simp [setAt]

theorem setAt_other {α : Type} (a : Nat → α) (i j : Nat) (v : α) (h : j ≠ i) :
    setAt a i v j = a j := by
  simp [setAt, h]



theorem findName_eq_end (s : FS) (name : String) :
    findName s name = 64 ↔
      ∀ i, i < 64 → ¬ ((s.directory_entry_table i).occupodo = true
        ∧ (s.directory_entry_table i).name = name) := by
  unfold findName
  have h := scanFrom_eq_end (fun i => (s.directory_entry_table i).occupodo
    && decide (name = (s.directory_entry_table i).name)) 64 0
  simp only [Nat.zero_add, Nat.zero_le, true_implies] at h
  rw [h]
  constructor
  · intro hh i hi ⟨h1, h2⟩
    have := hh i hi
    simp [h1, h2] at this
  · intro hh i hi
    have := hh i hi
    by_cases h1 : (s.directory_entry_table i).occupodo = true
    · have h2 : ¬ (s.directory_entry_table i).name = name := fun h2 => this ⟨h1, h2⟩
      have h3 : ¬ name = (s.directory_entry_table i).name := fun h3 => h2 h3.symm
      simp [h3]
    · simp [h1]

theorem findName_eq_first (s : FS) (name : String) (idx : Nat) (hidx : idx < 64)
    (hocc : (s.directory_entry_table idx).occupodo = true)
    (hname : (s.directory_entry_table idx).name = name)
    (hfirst : ∀ j, j < idx → ¬ ((s.directory_entry_table j).occupodo = true
        ∧ (s.directory_entry_table j).name = name)) :
    findName s name = idx := by
  unfold findName
  apply scanFrom_eq_of_first _ 64 0 idx (Nat.zero_le _) (by omega)
  · simp [hocc, hname]
  · intro j _ hj
    have := hfirst j hj
    by_cases h1 : (s.directory_entry_table j).occupodo = true
    · have h2 : ¬ (s.directory_entry_table j).name = name := fun h2 => this ⟨h1, h2⟩
      have h3 : ¬ name = (s.directory_entry_table j).name := fun h3 => h2 h3.symm
      simp [h3]
    · simp [h1]

theorem fs_close_of_badFd (s : FS) (fildes : Int) (hb : badFd s fildes = true) :
    fs_close s fildes = (-1, s) := by
  simp [fs_close, hb]

/-! ## C6: an invalid descriptor is a reported failure with no effect -/

/-- C6: for a descriptor number that is negative, at least 32, or names an
unoccupied slot, each of `fs_close`, `fs_read`, `fs_write`, `fs_lseek`,
`fs_truncate` and `fs_get_filesize` returns -1 and hands back the very state it
was given (descriptor table, `fd_count`, directory, FAT, bitmap and disk); and
the slot of a descriptor that `fs_close` has just closed is unoccupied, so a
second `fs_close` of it is such a failure. -/
theorem invalid_descriptor_no_effect (s : FS) (fildes : Int) (buf : Int → Nat) (nbyte : Nat)
    (bytes_written offset length : Int)
    (h : fildes < 0 ∨ 32 ≤ fildes ∨ (s.file_descriptors fildes.toNat).occupodo = false) :
    fs_close s fildes = (-1, s)
    ∧ fs_read s fildes nbyte = some (-1, s, [])
    ∧ fs_write s fildes buf nbyte bytes_written = (-1, s)
    ∧ fs_lseek s fildes offset = (-1, s)
    ∧ fs_truncate s fildes length = (-1, s)
    ∧ fs_get_filesize s fildes = (-1, s)
    ∧ (∀ (t : FS) (g : Int), (fs_close t g).1 = 0 →
        ((fs_close t g).2.file_descriptors g.toNat).occupodo = false
        ∧ fs_close (fs_close t g).2 g = (-1, (fs_close t g).2)) := by
  have hb : badFd s fildes = true := (badFd_eq_true_iff s fildes).2 h
  refine ⟨?_, ?_, ?_, ?_, ?_, ?_, ?_⟩
  · exact fs_close_of_badFd s fildes hb
  · simp [fs_read, hb]
  · simp [fs_write, hb]
  · simp [fs_lseek, hb]
  · simp [fs_truncate, hb]
  · simp [fs_get_filesize, hb]
  · intro t g hg
    have hocc : ((fs_close t g).2.file_descriptors g.toNat).occupodo = false := by
      unfold fs_close at hg ⊢
      by_cases hbt : badFd t g = true
      · simp [hbt] at hg
      · simp [hbt, setAt]
    refine ⟨hocc, ?_⟩
    exact fs_close_of_badFd _ g ((badFd_eq_true_iff _ g).2 (Or.inr (Or.inr hocc)))

/-- C6, at a concrete input: descriptor 5 of the fresh file system is not
open. -/
theorem invalid_descriptor_no_effect_witness :
    ((5 : Int) < 0 ∨ 32 ≤ (5 : Int) ∨ (freshFS.file_descriptors (5 : Int).toNat).occupodo = false)
    ∧ fs_close freshFS 5 = (-1, freshFS)
    ∧ fs_lseek freshFS 5 0 = (-1, freshFS) :=
  ⟨by decide,
   (invalid_descriptor_no_effect freshFS 5 (fun _ => 0) 1 0 0 0 (by decide)).1,
   (invalid_descriptor_no_effect freshFS 5 (fun _ => 0) 1 0 0 0 (by decide)).2.2.2.1⟩

/-! ## C9: the seek contract -/

/-- C9: for an occupied descriptor `fildes` (whose file size is a `uint16_t`
value) and every `offset`, `fs_lseek` returns -1 exactly when `offset < 0` or
`offset` exceeds the size of the bound FAT record, and then changes nothing;
otherwise it returns 0, the descriptor's cursor becomes `offset`, its other
fields and every other descriptor keep their values, and the directory, the
FAT, the bitmap, `fd_count` and the disk are unchanged. -/
theorem fs_lseek_contract (s : FS) (fildes offset : Int)
    (hfd : 0 ≤ fildes ∧ fildes < 32 ∧ (s.file_descriptors fildes.toNat).occupodo = true)
    (hsz : (s.fatTable (s.file_descriptors fildes.toNat).fatNum).fileSize < 65536) :
    ((fs_lseek s fildes offset).1 = -1 ↔
      (offset < 0 ∨
        offset > ((s.fatTable (s.file_descriptors fildes.toNat).fatNum).fileSize : Nat)))
    ∧ ((offset < 0 ∨
          offset > ((s.fatTable (s.file_descriptors fildes.toNat).fatNum).fileSize : Nat)) →
        (fs_lseek s fildes offset).2 = s)
    ∧ (¬ (offset < 0 ∨
          offset > ((s.fatTable (s.file_descriptors fildes.toNat).fatNum).fileSize : Nat)) →
        (fs_lseek s fildes offset).1 = 0
        ∧ (((fs_lseek s fildes offset).2.file_descriptors fildes.toNat).offset : Int) = offset
        ∧ ((fs_lseek s fildes offset).2.file_descriptors fildes.toNat).occupodo = true
        ∧ ((fs_lseek s fildes offset).2.file_descriptors fildes.toNat).fatNum
            = (s.file_descriptors fildes.toNat).fatNum
        ∧ (∀ g, g ≠ fildes.toNat →
            (fs_lseek s fildes offset).2.file_descriptors g = s.file_descriptors g)
        ∧ (fs_lseek s fildes offset).2.directory_entry_table = s.directory_entry_table
        ∧ (fs_lseek s fildes offset).2.fatTable = s.fatTable
        ∧ (fs_lseek s fildes offset).2.block_bitmap = s.block_bitmap
        ∧ (fs_lseek s fildes offset).2.fd_count = s.fd_count
        ∧ (fs_lseek s fildes offset).2.disk = s.disk) := by
  have hb : badFd s fildes = false := (badFd_eq_false_iff s fildes).2 hfd
  by_cases hc : offset > ((s.fatTable (s.file_descriptors fildes.toNat).fatNum).fileSize : Nat)
      ∨ offset < 0
  · have hc2 : offset < 0 ∨
        offset > ((s.fatTable (s.file_descriptors fildes.toNat).fatNum).fileSize : Nat) :=
      hc.symm
    have hr : fs_lseek s fildes offset = (-1, s) := by
      simp only [fs_lseek, hb, Bool.false_eq_true, if_false, if_pos hc]
    rw [hr]
    exact ⟨⟨fun _ => hc2, fun _ => rfl⟩, fun _ => rfl, fun hn => absurd hc2 hn⟩
  · have hc2 : ¬ (offset < 0 ∨
        offset > ((s.fatTable (s.file_descriptors fildes.toNat).fatNum).fileSize : Nat)) :=
      fun h => hc h.symm
    have hr : fs_lseek s fildes offset = (0, { s with
            file_descriptors :=
              setAt s.file_descriptors fildes.toNat
                { s.file_descriptors fildes.toNat with offset := offset.toNat % 2 ^ 32 } }) := by
      simp only [fs_lseek, hb, Bool.false_eq_true, if_false, if_neg hc]
    rw [hr]
    refine ⟨⟨fun h => by simp at h, fun h => absurd h hc2⟩, fun h => absurd h hc2, fun _ => ?_⟩
    refine ⟨rfl, ?_, ?_, ?_, ?_, rfl, rfl, rfl, rfl, rfl⟩
    · simp only [setAt_same]
      have h0 : 0 ≤ offset := by omega
      have h1 : offset.toNat < 2 ^ 32 := by omega
      rw [Nat.mod_eq_of_lt h1]
      exact Int.toNat_of_nonneg h0
    · simp only [setAt_same]; exact hfd.2.2
    · simp only [setAt_same]
    · intro g hg
      simp only [setAt_other _ _ _ _ hg]

/-- C9, at a concrete input: seeking descriptor 0 of `openedFS` (an empty
file) to offset 0. -/
theorem fs_lseek_contract_witness :
    (0 ≤ (0 : Int) ∧ (0 : Int) < 32
      ∧ (openedFS.file_descriptors (0 : Int).toNat).occupodo = true)
    ∧ ((fs_lseek openedFS 0 0).1 = -1 ↔
      ((0 : Int) < 0 ∨ (0 : Int) >
        ((openedFS.fatTable (openedFS.file_descriptors (0 : Int).toNat).fatNum).fileSize : Nat))) :=
  ⟨by decide, (fs_lseek_contract openedFS 0 0 (by decide) (by decide)).1⟩

/-! ## C5: delete while open -/

theorem boundScan_eq_end (s : FS) (fatNum : Nat) :
    scanFrom (fun i => (s.file_descriptors i).occupodo
      && decide (fatNum = (s.file_descriptors i).fatNum)) 32 0 = 32 ↔
      ∀ f, f < 32 → ¬ ((s.file_descriptors f).occupodo = true
        ∧ (s.file_descriptors f).fatNum = fatNum) := by
  have h := scanFrom_eq_end (fun i => (s.file_descriptors i).occupodo
    && decide (fatNum = (s.file_descriptors i).fatNum)) 32 0
  simp only [Nat.zero_add, Nat.zero_le, true_implies] at h
  rw [h]
  constructor
  · intro hh f hf ⟨h1, h2⟩
    have := hh f hf
    simp [h1, h2] at this
  · intro hh f hf
    have := hh f hf
    by_cases h1 : (s.file_descriptors f).occupodo = true
    · have h2 : ¬ (s.file_descriptors f).fatNum = fatNum := fun h2 => this ⟨h1, h2⟩
      have h3 : ¬ fatNum = (s.file_descriptors f).fatNum := fun h3 => h2 h3.symm
      simp [h3]
    · simp [h1]

/-- C5: `fs_delete(name)` on the occupied directory entry `idx` that carries
`name` (the first such entry) returns -1 and changes nothing, so the entry
stays occupied, while some occupied descriptor is bound to the entry's FAT
record; it returns 0 and marks exactly that entry unoccupied when no occupied
descriptor is bound to it; and on any state, `fs_delete` of a name that no
occupied entry carries returns -1 and changes nothing. -/
theorem fs_delete_contract (s : FS) (name : String) (idx : Nat) (hidx : idx < 64)
    (hocc : (s.directory_entry_table idx).occupodo = true)
    (hname : (s.directory_entry_table idx).name = name)
    (hfirst : ∀ j, j < idx → ¬ ((s.directory_entry_table j).occupodo = true
        ∧ (s.directory_entry_table j).name = name)) :
    ((∃ f, f < 32 ∧ (s.file_descriptors f).occupodo = true
          ∧ (s.file_descriptors f).fatNum = (s.directory_entry_table idx).fatNum) →
        fs_delete s name = (-1, s)
        ∧ ((fs_delete s name).2.directory_entry_table idx).occupodo = true)
    ∧ ((∀ f, f < 32 → ¬ ((s.file_descriptors f).occupodo = true
          ∧ (s.file_descriptors f).fatNum = (s.directory_entry_table idx).fatNum)) →
        (fs_delete s name).1 = 0
        ∧ ((fs_delete s name).2.directory_entry_table idx).occupodo = false
        ∧ (fs_delete s name).2 =
            { s with
              directory_entry_table :=
                setAt s.directory_entry_table idx
                  { s.directory_entry_table idx with occupodo := false } })
    ∧ (∀ (t : FS) (n : String),
        (∀ i, i < 64 → ¬ ((t.directory_entry_table i).occupodo = true
          ∧ (t.directory_entry_table i).name = n)) →
        fs_delete t n = (-1, t)) := by
  have hfind : findName s name = idx := findName_eq_first s name idx hidx hocc hname hfirst
  have hne : ¬ idx = 64 := by omega
  refine ⟨?_, ?_, ?_⟩
  · intro hbound
    have hscan : ¬ scanFrom (fun i => (s.file_descriptors i).occupodo
        && decide ((s.directory_entry_table idx).fatNum = (s.file_descriptors i).fatNum)) 32 0
        = 32 := by
      rw [boundScan_eq_end]
      intro hall
      obtain ⟨f, hf, h1, h2⟩ := hbound
      exact hall f hf ⟨h1, h2⟩
    have hr : fs_delete s name = (-1, s) := by
      simp only [fs_delete, hfind, if_neg hne, ne_eq, hscan, not_false_eq_true, if_true]
    rw [hr]
    exact ⟨rfl, hocc⟩
  · intro hfree
    have hscan : scanFrom (fun i => (s.file_descriptors i).occupodo
        && decide ((s.directory_entry_table idx).fatNum = (s.file_descriptors i).fatNum)) 32 0
        = 32 := (boundScan_eq_end s _).2 hfree
    have hr : fs_delete s name =
        (0, { s with
              directory_entry_table :=
                setAt s.directory_entry_table idx
                  { s.directory_entry_table idx with occupodo := false } }) := by
      simp only [fs_delete, hfind, if_neg hne, ne_eq, hscan, not_true_eq_false, if_false]
    rw [hr]
    exact ⟨rfl, by simp [setAt], rfl⟩
  · intro t n hnone
    have h64 : findName t n = 64 := (findName_eq_end t n).2 hnone
    simp [fs_delete, h64]

/-- C5, at a concrete input: `"a.txt"` is open through descriptor 0 in
`openedFS`, so deleting it fails. -/
theorem fs_delete_contract_witness :
    (∃ f, f < 32 ∧ (openedFS.file_descriptors f).occupodo = true
        ∧ (openedFS.file_descriptors f).fatNum = (openedFS.directory_entry_table 0).fatNum)
    ∧ fs_delete openedFS "a.txt" = (-1, openedFS) :=
  ⟨⟨0, by decide, by decide, by decide⟩,
   ((fs_delete_contract openedFS "a.txt" 0 (by decide) (by decide) (by decide)
      (by intro j hj; omega)).1 ⟨0, by decide, by decide, by decide⟩).1⟩

/-! ## Capacity boundary: full tables, and a mount in a fresh process -/

theorem freeSlotScan_eq (occ : Nat → Bool) (n k : Nat) (hk : k < n)
    (h : ∀ i, i < n → (occ i = true ↔ i < k)) :
    scanFrom (fun i => !occ i) n 0 = k := by
  apply scanFrom_eq_of_first _ n 0 k (Nat.zero_le _) (by omega)
  · have : ¬ occ k = true := fun hc => by have := (h k hk).1 hc; omega
    simpa using this
  · intro j _ hj
    have : occ j = true := (h j (by omega)).2 hj
    simp [this]

theorem freeSlotScan_full (occ : Nat → Bool) (n : Nat) (h : ∀ i, i < n → occ i = true) :
    scanFrom (fun i => !occ i) n 0 = n := by
  have := (scanFrom_eq_end (fun i => !occ i) n 0).2
    (by intro j _ hj; simp [h j (by omega)])
  simpa using this

theorem fs_create_full (s : FS) (name : String)
    (h : ∀ i, i < 64 → (s.directory_entry_table i).occupodo = true) :
    fs_create s name = (-1, s) := by
  unfold fs_create
  split
  · rfl
  · split
    · rfl
    · have := freeSlotScan_full (fun i => (s.directory_entry_table i).occupodo) 64 h
      simp [this]

theorem fs_open_full (s : FS) (name : String)
    (h : ∀ i, i < 32 → (s.file_descriptors i).occupodo = true) :
    fs_open s name = (-1, s) := by
  unfold fs_open
  have := freeSlotScan_full (fun i => (s.file_descriptors i).occupodo) 32 h
  simp only [this]
  split
  · rfl
  · split
    · rfl
    · simp

theorem fs_create_next (s : FS) (name : String) (k : Nat) (hk : k < 64)
    (hocc : ∀ i, i < 64 → ((s.directory_entry_table i).occupodo = true ↔ i < k))
    (hnew : ∀ i, i < k → (s.directory_entry_table i).name ≠ name)
    (hlen : strlen name ≤ 15) :
    fs_create s name =
      (0, { s with
            directory_entry_table :=
              setAt s.directory_entry_table k
                { s.directory_entry_table k with name := name, occupodo := true } }) := by
  have hfind : findName s name = 64 := by
    rw [findName_eq_end]
    intro i hi ⟨h1, h2⟩
    exact hnew i ((hocc i hi).1 h1) h2
  have hslot := freeSlotScan_eq (fun i => (s.directory_entry_table i).occupodo) 64 k hk hocc
  have hk64 : ¬ k = 64 := by omega
  have hl : ¬ strlen name > 15 := by omega
  simp only [fs_create, if_neg hl, hfind, ne_eq, not_true_eq_false, if_false, hslot, if_neg hk64]

theorem createAll_spec (names : List String) :
    ∀ (s : FS) (k : Nat),
      (∀ i, i < 64 → ((s.directory_entry_table i).occupodo = true ↔ i < k)) →
      (∀ i, i < k → (s.directory_entry_table i).name ∉ names) →
      names.Nodup → (∀ n ∈ names, strlen n ≤ 15) → k + names.length ≤ 64 →
      (createAll s names).1 = List.replicate names.length 0
      ∧ (∀ i, i < 64 → (((createAll s names).2.directory_entry_table i).occupodo = true
            ↔ i < k + names.length))
      ∧ (∀ n ∈ names, ∃ i, i < 64
            ∧ ((createAll s names).2.directory_entry_table i).occupodo = true
            ∧ ((createAll s names).2.directory_entry_table i).name = n)
      ∧ (∀ i, i < k →
            (createAll s names).2.directory_entry_table i = s.directory_entry_table i)
      ∧ (createAll s names).2.file_descriptors = s.file_descriptors
      ∧ (createAll s names).2.fd_count = s.fd_count := by
  induction names with
  | nil =>
    intro s k hocc _ _ _ _
    refine ⟨rfl, ?_, ?_, ?_, rfl, rfl⟩
    · intro i hi; simpa [createAll] using hocc i hi
    · intro n hn; simp at hn
    · intro i _; rfl
  | cons n ns ih =>
    intro s k hocc hnew hnd hlen hcap
    simp only [List.length_cons] at hcap
    have hk : k < 64 := by omega
    have hstep := fs_create_next s n k hk hocc
      (fun i hi hc => hnew i hi (by simp [hc])) (hlen n (by simp))
    have hnd' := List.nodup_cons.1 hnd
    have hocc1 : ∀ i, i < 64 → (((fs_create s n).2.directory_entry_table i).occupodo = true
        ↔ i < k + 1) := by
      intro i hi
      rw [hstep]
      by_cases hik : i = k
      · subst hik; simp [setAt]
      · simp only [setAt_other _ _ _ _ hik]
        rw [hocc i hi]; omega
    have hnew1 : ∀ i, i < k + 1 → ((fs_create s n).2.directory_entry_table i).name ∉ ns := by
      intro i hi
      rw [hstep]
      by_cases hik : i = k
      · subst hik; simpa [setAt] using hnd'.1
      · simp only [setAt_other _ _ _ _ hik]
        have := hnew i (by omega)
        exact fun hc => this (List.mem_cons_of_mem _ hc)
    obtain ⟨r1, r2, r3, r4, r5, r6⟩ := ih (fs_create s n).2 (k + 1) hocc1 hnew1 hnd'.2
      (fun m hm => hlen m (List.mem_cons_of_mem _ hm)) (by omega)
    have hfst : (fs_create s n).1 = 0 := by rw [hstep]
    refine ⟨?_, ?_, ?_, ?_, ?_, ?_⟩
    · simp only [createAll, r1, hfst, List.length_cons, List.replicate_succ]
    · intro i hi
      simp only [createAll, List.length_cons]
      rw [r2 i hi]; omega
    · intro m hm
      simp only [createAll]
      rcases List.mem_cons.1 hm with hmn | hmns
      · subst hmn
        refine ⟨k, hk, ?_, ?_⟩
        · rw [r2 k hk]; omega
        · rw [r4 k (by omega), hstep]; simp [setAt]
      · exact r3 m hmns
    · intro i hi
      simp only [createAll]
      rw [r4 i (by omega), hstep]
      have hik : i ≠ k := by omega
      simp only [setAt_other _ _ _ _ hik]
    · simp only [createAll]; rw [r5, hstep]
    · simp only [createAll]; rw [r6, hstep]

theorem findName_congr (s t : FS) (name : String)
    (h : ∀ i, (t.directory_entry_table i).occupodo = (s.directory_entry_table i).occupodo
      ∧ (t.directory_entry_table i).name = (s.directory_entry_table i).name) :
    findName t name = findName s name := by
  unfold findName
  congr 1
  funext i
  rw [(h i).1, (h i).2]

theorem fs_open_next (s : FS) (name : String) (j : Nat) (hj : j < 32)
    (hocc : ∀ i, i < 32 → ((s.file_descriptors i).occupodo = true ↔ i < j))
    (hcount : s.fd_count = (j : Int)) (hfind : findName s name ≠ 64) :
    (fs_open s name).1 = (j : Int)
    ∧ (∀ i, i < 32 → (((fs_open s name).2.file_descriptors i).occupodo = true ↔ i < j + 1))
    ∧ (fs_open s name).2.fd_count = ((j + 1 : Nat) : Int)
    ∧ findName (fs_open s name).2 name ≠ 64 := by
  have hslot := freeSlotScan_eq (fun i => (s.file_descriptors i).occupodo) 32 j hj hocc
  have hj32 : ¬ j = 32 := by omega
  have hc : ¬ s.fd_count ≥ 32 := by rw [hcount]; omega
  have hr : fs_open s name =
      ((j : Int),
        { s with
          file_descriptors := setAt s.file_descriptors j
            { occupodo := true,
              fatNum := (s.directory_entry_table (findName s name)).fatNum, offset := 0 },
          directory_entry_table :=
            setAt s.directory_entry_table j
              { s.directory_entry_table j with
                ref_count := (s.directory_entry_table j).ref_count + 1 },
          fd_count := s.fd_count + 1 }) := by
    simp only [fs_open, if_neg hfind, if_neg hc, hslot, if_neg hj32]
  rw [hr]
  refine ⟨rfl, ?_, ?_, ?_⟩
  · intro i hi
    by_cases hij : i = j
    · subst hij; simp [setAt]
    · simp only [setAt_other _ _ _ _ hij]
      rw [hocc i hi]; omega
  · simp only [hcount]; push_cast; rfl
  · have hcg := findName_congr s
      { s with
          file_descriptors := setAt s.file_descriptors j
            { occupodo := true,
              fatNum := (s.directory_entry_table (findName s name)).fatNum, offset := 0 },
          directory_entry_table :=
            setAt s.directory_entry_table j
              { s.directory_entry_table j with
                ref_count := (s.directory_entry_table j).ref_count + 1 },
          fd_count := s.fd_count + 1 } name
      (by
        intro i
        by_cases hij : i = j
        · subst hij; simp [setAt]
        · simp [setAt, hij])
    rw [hcg]; exact hfind

theorem openMany_spec (name : String) (k : Nat) :
    ∀ (s : FS) (j : Nat), j + k ≤ 32 →
      (∀ i, i < 32 → ((s.file_descriptors i).occupodo = true ↔ i < j)) →
      s.fd_count = (j : Int) → findName s name ≠ 64 →
      (openMany s name k).1 = (List.range' j k).map Int.ofNat := by
  induction k with
  | zero => intro s j _ _ _ _; simp [openMany]
  | succ k ih =>
    intro s j hjk hocc hcount hfind
    obtain ⟨h1, h2, h3, h4⟩ := fs_open_next s name j (by omega) hocc hcount hfind
    have := ih (fs_open s name).2 (j + 1) (by omega) h2 h3 h4
    simp only [openMany, h1, this, List.range'_succ, List.map_cons, Int.ofNat_eq_coe]

/-- The capacity boundary where the code keeps it: in a state whose 64
directory entries are all occupied, `fs_create` of any name returns -1 and
changes nothing; in a state whose 32 descriptors are all occupied, `fs_open`
of any name returns -1 and changes nothing (descriptor table and ref-counts
included); and on the file system formatted and mounted in a fresh process
(`fd_count` is 0), 64 calls of `fs_create` with pairwise distinct names of at
most 14 bytes (names that fit `char name[15]` with their terminator) all
return 0, after which 32 calls of `fs_open` of any one of these names return
the pairwise distinct descriptors 0, 1, ..., 31. -/
theorem capacity_boundary :
    (∀ (s : FS) (name : String),
      (∀ i, i < 64 → (s.directory_entry_table i).occupodo = true) →
      fs_create s name = (-1, s))
    ∧ (∀ (s : FS) (name : String),
      (∀ i, i < 32 → (s.file_descriptors i).occupodo = true) →
      fs_open s name = (-1, s))
    ∧ (∀ names : List String, names.length = 64 → names.Nodup →
      (∀ n ∈ names, strlen n ≤ 14) →
      (createAll freshFS names).1 = List.replicate 64 0
      ∧ (∀ n ∈ names,
          (openMany (createAll freshFS names).2 n 32).1
            = (List.range 32).map Int.ofNat)
      ∧ ((List.range 32).map Int.ofNat).Nodup) := by
  refine ⟨fs_create_full, fs_open_full, ?_⟩
  intro names hlen hnd hvalid
  have hfresh : ∀ i, i < 64 → ((freshFS.directory_entry_table i).occupodo = true ↔ i < 0) := by
    intro i _
    simp [freshFS, mount_fs, make_fs, zeroDir]
  obtain ⟨r1, _, r3, _, r5, r6⟩ := createAll_spec names freshFS 0 hfresh
    (by intro i hi; omega) hnd (fun n hn => Nat.le_succ_of_le (hvalid n hn)) (by omega)
  refine ⟨by rw [r1, hlen], ?_, ?_⟩
  · intro n hn
    obtain ⟨i, hi, ho, hnm⟩ := r3 n hn
    have hfind : findName (createAll freshFS names).2 n ≠ 64 := by
      intro hc
      exact (findName_eq_end _ n).1 hc i hi ⟨ho, hnm⟩
    have := openMany_spec n 32 (createAll freshFS names).2 0 (by omega)
      (by intro i _; rw [r5]; simp [freshFS, mount_fs, zeroFd])
      (by rw [r6]; simp [freshFS, mount_fs]) hfind
    rw [this, List.range_eq_range']
  · apply List.Nodup.map
    · intro a b hab; exact Int.ofNat.inj hab
    · exact List.nodup_range 32

/-- The capacity boundary at a concrete input: the 64 names of `names64` are
created on the fresh file system, every call returning 0. -/
theorem capacity_boundary_witness :
    (names64.length = 64 ∧ names64.Nodup ∧ ∀ n ∈ names64, strlen n ≤ 14)
    ∧ (createAll freshFS names64).1 = List.replicate 64 0 :=
  ⟨⟨by decide, by decide, by decide⟩,
   (capacity_boundary.2.2 names64 (by decide) (by decide) (by decide)).1⟩

/-! ## The loops of `fs_write` in closed form -/

theorem seekBlock_fst_le (k : Nat) : ∀ (file_offset block_idx : Nat), file_offset ≤ k →
    (seekBlock k file_offset block_idx).1 ≤ BLOCK_SIZE := by
  induction k with
  | zero => intro fo bi h; simp [seekBlock]; omega
  | succ k ih =>
    intro fo bi h
    unfold seekBlock
    split
    · rename_i hgt
      apply ih
      simp only [BLOCK_SIZE] at hgt ⊢
      omega
    · rename_i hle
      simpa using hle

theorem allocLoop_inv (need : Int) (k : Nat) : ∀ (fat : FAT) (bitmap : Nat → Nat),
    (∀ j, fat.single_out_offset j < DISK_BLOCKS) →
    (allocLoop need k fat bitmap).1.fileSize = fat.fileSize
    ∧ (∀ j, (allocLoop need k fat bitmap).1.single_out_offset j < DISK_BLOCKS) := by
  induction k with
  | zero => intro fat bitmap h; exact ⟨rfl, h⟩
  | succ k ih =>
    intro fat bitmap h
    unfold allocLoop
    by_cases hb : ((fat.blocks : Nat) : Int) < need
    · have hle := scanFrom_le (fun i => !get_bit bitmap i) DISK_BLOCKS 0
      by_cases hfull : scanFrom (fun i => !get_bit bitmap i) DISK_BLOCKS 0 = DISK_BLOCKS
      · simp only [if_pos hb, hfull, if_true]
        exact ⟨trivial, h⟩
      · simp only [if_pos hb, if_neg hfull]
        have hlt : scanFrom (fun i => !get_bit bitmap i) DISK_BLOCKS 0 < DISK_BLOCKS := by omega
        exact ih
          { fat with
            single_out_offset := setAt fat.single_out_offset fat.blocks
              (scanFrom (fun i => !get_bit bitmap i) DISK_BLOCKS 0),
            blocks := (fat.blocks + 1) % 65536 }
          (set_bit bitmap (scanFrom (fun i => !get_bit bitmap i) DISK_BLOCKS 0))
          (by
            intro j
            simp only [setAt]
            split
            · exact hlt
            · exact h j)
    · simp only [if_neg hb]
      exact ⟨trivial, h⟩

theorem writeFor_spec (buf : Int → Nat) (k : Nat) : ∀ (i : Nat) (v : WriteVars), 1 ≤ v.left →
    (writeFor buf k i v).left = v.left - ((min k v.left.toNat : Nat) : Int)
    ∧ (writeFor buf k i v).bytes_written = v.bytes_written + ((min k v.left.toNat : Nat) : Int)
    ∧ (writeFor buf k i v).offset % 2 ^ 32 = (v.offset + min k v.left.toNat) % 2 ^ 32
    ∧ (1 ≤ k → (writeFor buf k i v).offset = (v.offset + min k v.left.toNat) % 2 ^ 32) := by
  induction k with
  | zero => intro i v _; simp [writeFor]
  | succ k ih =>
    intro i v hl
    unfold writeFor
    by_cases h1 : v.left - 1 = 0
    · have hv : v.left = 1 := by omega
      simp only [h1, if_true]
      have hm : min (k + 1) v.left.toNat = 1 := by rw [hv]; simp
      rw [hm]
      refine ⟨by omega, by simp, by simp, fun _ => rfl⟩
    · simp only [h1, if_false]
      obtain ⟨r1, r2, r3, r4⟩ := ih (i + 1)
        { current_block := setAt v.current_block i (buf v.bytes_written),
          bytes_written := v.bytes_written + 1,
          offset := (v.offset + 1) % 2 ^ 32,
          left := v.left - 1 } (by show 1 ≤ v.left - 1; omega)
      simp only at r1 r2 r3 r4
      have hm : min (k + 1) v.left.toNat = min k (v.left - 1).toNat + 1 := by omega
      rw [hm]
      have hoff : (writeFor buf k (i + 1)
          { current_block := setAt v.current_block i (buf v.bytes_written),
            bytes_written := v.bytes_written + 1,
            offset := (v.offset + 1) % 2 ^ 32,
            left := v.left - 1 }).offset % 2 ^ 32
          = (v.offset + (min k (v.left - 1).toNat + 1)) % 2 ^ 32 := by
        rw [r3]; omega
      refine ⟨by rw [r1]; push_cast; omega, by rw [r2]; push_cast; omega, hoff, fun _ => ?_⟩
      rw [← hoff]
      by_cases hk : 1 ≤ k
      · rw [r4 hk]; simp
      · have hk0 : k = 0 := by omega
        subst hk0
        simp [writeFor]

theorem writeLoop_spec (buf : Int → Nat) (fat : FAT)
    (hsoo : ∀ j, fat.single_out_offset j < DISK_BLOCKS) (k : Nat) :
    ∀ (first_block file_offset block_idx : Nat) (d : Disk) (v : WriteVars),
      first_block < DISK_BLOCKS → file_offset ≤ BLOCK_SIZE →
      v.left.toNat + (if file_offset = BLOCK_SIZE then 1 else 0) ≤ k →
      (writeLoop buf fat k first_block file_offset block_idx d v).1 = true
      ∧ (writeLoop buf fat k first_block file_offset block_idx d v).2.2.bytes_written
          = v.bytes_written + ((v.left.toNat : Nat) : Int)
      ∧ (writeLoop buf fat k first_block file_offset block_idx d v).2.2.offset % 2 ^ 32
          = (v.offset + v.left.toNat) % 2 ^ 32
      ∧ (1 ≤ v.left →
          (writeLoop buf fat k first_block file_offset block_idx d v).2.2.offset
            = (v.offset + v.left.toNat) % 2 ^ 32)
      ∧ (v.left ≤ 0 →
          (writeLoop buf fat k first_block file_offset block_idx d v).2.2.offset = v.offset) := by
  induction k with
  | zero =>
    intro fb fo bi d v _ _ hk
    have h0 : v.left.toNat = 0 := by omega
    simp only [writeLoop, h0, Nat.cast_zero, add_zero, Nat.add_zero, true_and]
    exact ⟨fun h => absurd h (by omega), fun _ => trivial⟩
  | succ k ih =>
    intro fb fo bi d v hfb hfo hk
    unfold writeLoop
    by_cases hl : v.left > 0
    · have hrd : block_read d fb = some (d.data fb) := by simp [block_read, hfb]
      obtain ⟨r1, r2, r3, r4⟩ := writeFor_spec buf (BLOCK_SIZE - fo) fo
        { v with current_block := d.data fb } (by show 1 ≤ v.left; omega)
      simp only at r1 r2 r3 r4
      simp only [if_pos hl, hrd, block_write, if_pos hfb]
      by_cases h1 : (writeFor buf (BLOCK_SIZE - fo) fo
          { v with current_block := d.data fb }).left > 0
      · simp only [if_pos h1]
        have hfuel : (writeFor buf (BLOCK_SIZE - fo) fo
            { v with current_block := d.data fb }).left.toNat
            + (if 0 = BLOCK_SIZE then 1 else 0) ≤ k := by
          have : ¬ (0 = BLOCK_SIZE) := by decide
          rw [if_neg this]
          rw [r1] at h1 ⊢
          by_cases hfo2 : fo = BLOCK_SIZE
          · rw [if_pos hfo2] at hk
            omega
          · rw [if_neg hfo2] at hk
            omega
        obtain ⟨q1, q2, q3, q4, _⟩ := ih (fat.single_out_offset (bi + 1)) 0 (bi + 1)
          { d with data := setAt d.data fb (writeFor buf (BLOCK_SIZE - fo) fo
              { v with current_block := d.data fb }).current_block }
          (writeFor buf (BLOCK_SIZE - fo) fo { v with current_block := d.data fb })
          (hsoo _) (Nat.zero_le _) hfuel
        have hq3 : (writeLoop buf fat k (fat.single_out_offset (bi + 1)) 0 (bi + 1)
            { d with data := setAt d.data fb (writeFor buf (BLOCK_SIZE - fo) fo
              { v with current_block := d.data fb }).current_block }
            (writeFor buf (BLOCK_SIZE - fo) fo { v with current_block := d.data fb })).2.2.offset
              % 2 ^ 32 = (v.offset + v.left.toNat) % 2 ^ 32 := by
          rw [q3, r1]
          rw [r1] at h1
          omega
        refine ⟨q1, ?_, hq3, fun _ => ?_, fun h => absurd h (by omega)⟩
        · rw [q2, r2, r1]
          rw [r1] at h1
          omega
        · rw [← hq3]
          rw [q4 (by omega)]
          simp
      · simp only [if_neg h1]
        have hmin : min (BLOCK_SIZE - fo) v.left.toNat = v.left.toNat := by
          rw [r1] at h1; omega
        rw [hmin] at r2 r3 r4
        refine ⟨trivial, r2, r3, fun _ => r4 (by omega), fun h => absurd h (by omega)⟩
    · have h0 : v.left.toNat = 0 := by omega
      simp only [if_neg hl, h0, Nat.cast_zero, add_zero, Nat.add_zero, true_and]
      exact ⟨fun h => absurd h (by omega), fun _ => trivial⟩

theorem toInt32_of_lt (n : Nat) (h : n < 2 ^ 31) : toInt32 n = (n : Int) := by
  unfold toInt32
  have h1 : n % 2 ^ 32 = n := Nat.mod_eq_of_lt (by omega)
  rw [h1, if_pos h]

/-- The size, the cursor and the returned value after `fs_write`, for an
occupied descriptor whose FAT record lists only block indices below
`DISK_BLOCKS` (so the device calls succeed) and a request that does not
overflow `size_t`: with `accepted` the request after the `MAX_SIZE` clamp of
line 408, the routine returns `bytes_written + accepted`, the stored size is
`(fileSize + accepted) % 65536`, the cursor advances by `accepted`, and the
other descriptors, the directory, the other FAT records and `fd_count` keep
their values; the record still lists only block indices below `DISK_BLOCKS`. -/
theorem fs_write_spec (s : FS) (fildes : Int) (buf : Int → Nat) (nbyte : Nat)
    (bytes_written : Int)
    (hfd : badFd s fildes = false)
    (hsoo : ∀ j,
      (s.fatTable (s.file_descriptors fildes.toNat).fatNum).single_out_offset j < DISK_BLOCKS)
    (hnb : nbyte + (s.fatTable (s.file_descriptors fildes.toNat).fatNum).fileSize < 2 ^ 64) :
    (fs_write s fildes buf nbyte bytes_written).1
        = bytes_written
          + (((if nbyte + (s.fatTable (s.file_descriptors fildes.toNat).fatNum).fileSize > MAX_SIZE
              then MAX_SIZE - (s.fatTable (s.file_descriptors fildes.toNat).fatNum).fileSize
              else nbyte : Nat)) : Int)
    ∧ ((fs_write s fildes buf nbyte bytes_written).2.fatTable
          (s.file_descriptors fildes.toNat).fatNum).fileSize
        = ((s.fatTable (s.file_descriptors fildes.toNat).fatNum).fileSize
            + (if nbyte + (s.fatTable (s.file_descriptors fildes.toNat).fatNum).fileSize > MAX_SIZE
              then MAX_SIZE - (s.fatTable (s.file_descriptors fildes.toNat).fatNum).fileSize
              else nbyte)) % 65536
    ∧ ((fs_write s fildes buf nbyte bytes_written).2.file_descriptors fildes.toNat).offset
          % 2 ^ 32
        = ((s.file_descriptors fildes.toNat).offset
            + (if nbyte + (s.fatTable (s.file_descriptors fildes.toNat).fatNum).fileSize > MAX_SIZE
              then MAX_SIZE - (s.fatTable (s.file_descriptors fildes.toNat).fatNum).fileSize
              else nbyte)) % 2 ^ 32
    ∧ ((fs_write s fildes buf nbyte bytes_written).2.file_descriptors fildes.toNat).occupodo
        = true
    ∧ ((fs_write s fildes buf nbyte bytes_written).2.file_descriptors fildes.toNat).fatNum
        = (s.file_descriptors fildes.toNat).fatNum
    ∧ (∀ g, g ≠ fildes.toNat →
        (fs_write s fildes buf nbyte bytes_written).2.file_descriptors g = s.file_descriptors g)
    ∧ (∀ n, n ≠ (s.file_descriptors fildes.toNat).fatNum →
        (fs_write s fildes buf nbyte bytes_written).2.fatTable n = s.fatTable n)
    ∧ (fs_write s fildes buf nbyte bytes_written).2.directory_entry_table
        = s.directory_entry_table
    ∧ (fs_write s fildes buf nbyte bytes_written).2.fd_count = s.fd_count
    ∧ (∀ j, ((fs_write s fildes buf nbyte bytes_written).2.fatTable
          (s.file_descriptors fildes.toNat).fatNum).single_out_offset j < DISK_BLOCKS)
    ∧ ((fs_write s fildes buf nbyte bytes_written).2.file_descriptors fildes.toNat).offset
        ≤ (s.file_descriptors fildes.toNat).offset
            + (if nbyte + (s.fatTable (s.file_descriptors fildes.toNat).fatNum).fileSize > MAX_SIZE
              then MAX_SIZE - (s.fatTable (s.file_descriptors fildes.toNat).fatNum).fileSize
              else nbyte) := by
  have hocc := ((badFd_eq_false_iff s fildes).1 hfd).2.2
  generalize hacc : (if nbyte + (s.fatTable (s.file_descriptors fildes.toNat).fatNum).fileSize
      > MAX_SIZE
    then MAX_SIZE - (s.fatTable (s.file_descriptors fildes.toNat).fatNum).fileSize
    else nbyte) = accepted
  have hacc_le : accepted ≤ MAX_SIZE := by
    rw [← hacc]
    split
    · omega
    · omega
  have hMAX : MAX_SIZE = 1048576 := by decide
  have hclamp : (if (nbyte + (s.fatTable (s.file_descriptors fildes.toNat).fatNum).fileSize)
        % 2 ^ 64 > MAX_SIZE
      then MAX_SIZE - (s.fatTable (s.file_descriptors fildes.toNat).fatNum).fileSize
      else nbyte) = accepted := by
    rw [Nat.mod_eq_of_lt hnb]; exact hacc
  have hint : toInt32 accepted = (accepted : Int) := toInt32_of_lt accepted (by omega)
  unfold fs_write
  simp only [hfd, Bool.false_eq_true, if_false, hclamp, hint]
  generalize hneed : (toInt32 (accepted / BLOCK_SIZE)
    + (if accepted % BLOCK_SIZE ≠ 0 then 1 else 0) : Int) = need
  have hinv := allocLoop_inv need (DISK_BLOCKS + 1)
    (s.fatTable (s.file_descriptors fildes.toNat).fatNum) s.block_bitmap hsoo
  generalize hal : allocLoop need (DISK_BLOCKS + 1)
    (s.fatTable (s.file_descriptors fildes.toNat).fatNum) s.block_bitmap = al at hinv
  obtain ⟨fat, bitmap⟩ := al
  simp only at hinv
  have hseek := seekBlock_fst_le (s.file_descriptors fildes.toNat).offset
    (s.file_descriptors fildes.toNat).offset 0 (Nat.le_refl _)
  generalize hsk : seekBlock (s.file_descriptors fildes.toNat).offset
    (s.file_descriptors fildes.toNat).offset 0 = sk at hseek
  obtain ⟨file_offset, block_idx⟩ := sk
  simp only at hseek
  have hloop := writeLoop_spec buf fat hinv.2 ((accepted : Int).toNat + 1)
    (fat.single_out_offset block_idx) file_offset block_idx s.disk
    { current_block := fun _ => 0, bytes_written := bytes_written,
      offset := (s.file_descriptors fildes.toNat).offset, left := (accepted : Int) }
    (hinv.2 _) hseek (by simp only; split <;> omega)
  simp only at hloop
  generalize hwl : writeLoop buf fat ((accepted : Int).toNat + 1)
    (fat.single_out_offset block_idx) file_offset block_idx s.disk
    { current_block := fun _ => 0, bytes_written := bytes_written,
      offset := (s.file_descriptors fildes.toNat).offset, left := (accepted : Int) } = wl at hloop
  obtain ⟨ok, d, v⟩ := wl
  simp only at hloop
  obtain ⟨l1, l2, l3, l4, l5⟩ := hloop
  simp only [l1, if_true, Int.toNat_ofNat] at l2 l3 l4 l5 ⊢
  refine ⟨l2, ?_, ?_, ?_, ?_, ?_, ?_, ?_, ?_, ?_, ?_⟩
  · simp only [setAt_same, hinv.1]
  · simp only [setAt_same]; exact l3
  · simp only [setAt_same]; exact hocc
  · simp only [setAt_same]
  · intro g hg; simp only [setAt_other _ _ _ _ hg]
  · intro n hn; simp only [setAt_other _ _ _ _ hn]
  · first | rfl | trivial
  · first | rfl | trivial
  · intro j; simp only [setAt_same]; exact hinv.2 j
  · simp only [setAt_same]
    by_cases hz : (1 : Int) ≤ (accepted : Int)
    · rw [l4 hz]
      exact Nat.mod_le _ _
    · rw [l5 (by omega)]
      omega

/-! ## C3: the write growth boundary -/

/-- The returned value and the stored size after `fs_write`, with the FAT
record number and the old size named. -/
theorem fs_write_size (s : FS) (fildes : Int) (buf : Int → Nat) (nbyte : Nat)
    (bytes_written : Int) (n size : Nat)
    (hfd : badFd s fildes = false)
    (hn : (s.file_descriptors fildes.toNat).fatNum = n)
    (hsize : (s.fatTable n).fileSize = size)
    (hsoo : ∀ j, (s.fatTable n).single_out_offset j < DISK_BLOCKS)
    (hnb : nbyte + size < 2 ^ 64) :
    (fs_write s fildes buf nbyte bytes_written).1
        = bytes_written + (((if nbyte + size > MAX_SIZE then MAX_SIZE - size else nbyte : Nat)) : Int)
    ∧ ((fs_write s fildes buf nbyte bytes_written).2.fatTable n).fileSize
        = (size + (if nbyte + size > MAX_SIZE then MAX_SIZE - size else nbyte)) % 65536
    ∧ badFd (fs_write s fildes buf nbyte bytes_written).2 fildes = false
    ∧ ((fs_write s fildes buf nbyte bytes_written).2.file_descriptors fildes.toNat).fatNum = n
    ∧ (∀ j, ((fs_write s fildes buf nbyte bytes_written).2.fatTable n).single_out_offset j
        < DISK_BLOCKS) := by
  subst hn
  subst hsize
  obtain ⟨h1, h2, -, h4, h5, -, -, -, -, h10, -⟩ :=
    fs_write_spec s fildes buf nbyte bytes_written hfd hsoo hnb
  have hv := (badFd_eq_false_iff s fildes).1 hfd
  exact ⟨h1, h2, (badFd_eq_false_iff _ fildes).2 ⟨hv.1, hv.2.1, h4⟩, h5, h10⟩

theorem openedFS_blocks_lt (j : Nat) :
    (openedFS.fatTable 0).single_out_offset j < DISK_BLOCKS := by
  show (0 : Nat) < DISK_BLOCKS
  decide

/-- C3 at the failing inputs.  On the fresh, empty, open file a request of
1048577 bytes is cut to 1048576 accepted bytes (the routine returns 1048576),
but the `uint16_t` size stored afterwards is 0, not 1048576.  And on a file of
60000 bytes a write of 6000 bytes (returning 6000) leaves the stored size 464,
smaller than before the write. -/
theorem write_growth_wraps_stored_size :
    (fs_write openedFS 0 bufA 1048577 0).1 = 1048576
    ∧ ((fs_write openedFS 0 bufA 1048577 0).2.fatTable 0).fileSize = 0
    ∧ ((fs_write openedFS 0 bufA 60000 0).2.fatTable 0).fileSize = 60000
    ∧ (fs_write (fs_write openedFS 0 bufA 60000 0).2 0 bufA 6000 0).1 = 6000
    ∧ ((fs_write (fs_write openedFS 0 bufA 60000 0).2 0 bufA 6000 0).2.fatTable 0).fileSize
        = 464 := by
  have hb : badFd openedFS 0 = false := by decide
  obtain ⟨a1, a2, -⟩ := fs_write_size openedFS 0 bufA 1048577 0 0 0 hb (by decide) (by decide)
    openedFS_blocks_lt (by decide)
  obtain ⟨-, b2, b3, b4, b5⟩ := fs_write_size openedFS 0 bufA 60000 0 0 0 hb (by decide)
    (by decide) openedFS_blocks_lt (by decide)
  have hsz2 : ((fs_write openedFS 0 bufA 60000 0).2.fatTable 0).fileSize = 60000 :=
    b2.trans (by decide)
  obtain ⟨c1, c2, -⟩ := fs_write_size (fs_write openedFS 0 bufA 60000 0).2 0 bufA 6000 0 0 60000
    b3 b4 hsz2 b5 (by decide)
  exact ⟨a1.trans (by decide), a2.trans (by decide), hsz2, c1.trans (by decide),
    c2.trans (by decide)⟩

/-! ## The loops of `fs_read` on a file of at most one block -/

theorem seekBlock_small (k file_offset : Nat) (h : file_offset ≤ BLOCK_SIZE) :
    seekBlock k file_offset 0 = (file_offset, 0) := by
  cases k with
  | zero => rfl
  | succ k =>
    unfold seekBlock
    rw [if_neg (by omega)]

theorem readFor_spec (current_block : Nat → Nat) (k : Nat) :
    ∀ (i : Nat) (v : ReadVars), 1 ≤ v.left → i + k ≤ BLOCK_SIZE →
      ∃ r, readFor current_block k i v = some r
        ∧ r.left = v.left - ((min k v.left.toNat : Nat) : Int)
        ∧ r.bytes_read = v.bytes_read + min k v.left.toNat
        ∧ r.offset % 2 ^ 32 = (v.offset + min k v.left.toNat) % 2 ^ 32
        ∧ (1 ≤ k → r.offset = (v.offset + min k v.left.toNat) % 2 ^ 32)
        ∧ (k = 0 → r.offset = v.offset)
        ∧ (∀ j, j < v.bytes_read → r.str j = v.str j)
        ∧ (∀ j, j < min k v.left.toNat → r.str (v.bytes_read + j) = current_block (i + j)) := by
  induction k with
  | zero =>
    intro i v _ _
    refine ⟨v, rfl, by simp, by simp, by simp, fun h => absurd h (by omega), fun _ => rfl,
      fun _ _ => rfl, fun j hj => ?_⟩
    simp at hj
  | succ k ih =>
    intro i v hl hi
    unfold readFor
    have hib : i < BLOCK_SIZE := by omega
    simp only [if_pos hib]
    by_cases h1 : v.left - 1 = 0
    · have hv : v.left = 1 := by omega
      simp only [h1, if_true]
      have hm : min (k + 1) v.left.toNat = 1 := by rw [hv]; simp
      rw [hm]
      refine ⟨_, rfl, by simp only; omega, rfl, by simp, fun _ => rfl,
        fun h => absurd h (by omega), fun j hj => ?_, fun j hj => ?_⟩
      · simp only [setAt_other _ _ _ _ (by omega : j ≠ v.bytes_read)]
      · have hj0 : j = 0 := by omega
        subst hj0
        simp [setAt]
    · simp only [h1, if_false]
      obtain ⟨r, hr, r1, r2, r3, r4, r5, r6, r7⟩ := ih (i + 1)
        { str := setAt v.str v.bytes_read (current_block i),
          bytes_read := v.bytes_read + 1,
          offset := (v.offset + 1) % 2 ^ 32,
          left := v.left - 1 } (by show 1 ≤ v.left - 1; omega) (by omega)
      simp only at r1 r2 r3 r4 r5 r6 r7
      have hm : min (k + 1) v.left.toNat = min k (v.left - 1).toNat + 1 := by omega
      rw [hm]
      have hoff : r.offset % 2 ^ 32
          = (v.offset + (min k (v.left - 1).toNat + 1)) % 2 ^ 32 := by
        rw [r3]; omega
      refine ⟨r, hr, by rw [r1]; push_cast; omega, by rw [r2]; omega, hoff, fun _ => ?_,
        fun h => absurd h (by omega), fun j hj => ?_, fun j hj => ?_⟩
      · rw [← hoff]
        by_cases hk : 1 ≤ k
        · rw [r4 hk]; simp
        · have hk0 : k = 0 := by omega
          rw [r5 hk0]; simp
      · rw [r6 j (by omega)]
        simp only [setAt_other _ _ _ _ (by omega : j ≠ v.bytes_read)]
      · by_cases hj0 : j = 0
        · subst hj0
          rw [Nat.add_zero, Nat.add_zero, r6 v.bytes_read (by omega)]
          simp [setAt]
        · have := r7 (j - 1) (by omega)
          have e1 : v.bytes_read + 1 + (j - 1) = v.bytes_read + j := by omega
          have e2 : i + 1 + (j - 1) = i + j := by omega
          rw [e1, e2] at this
          exact this

theorem readLoop_single (fat : FAT) (d : Disk) (k first_block : Nat) (v : ReadVars)
    (hsz : fat.fileSize ≤ BLOCK_SIZE) (hoff : v.offset ≤ fat.fileSize) :
    ∃ ok r, readLoop fat d (k + 1) first_block v.offset 0 v = some (ok, r)
      ∧ r.offset ≤ fat.fileSize
      ∧ (first_block < DISK_BLOCKS → ok = true
          ∧ r.bytes_read = v.bytes_read + min (fat.fileSize - v.offset) v.left.toNat
          ∧ r.offset = v.offset + min (fat.fileSize - v.offset) v.left.toNat
          ∧ (∀ j, j < min (fat.fileSize - v.offset) v.left.toNat →
              r.str (v.bytes_read + j) = d.data first_block (v.offset + j))) := by
  unfold readLoop
  by_cases hl : v.left > 0
  · simp only [if_pos hl]
    by_cases hfb : first_block < DISK_BLOCKS
    · simp only [block_read, if_pos hfb]
      obtain ⟨r, hr, r1, r2, r3, r4, r5, -, r7⟩ := readFor_spec (d.data first_block)
        (fat.fileSize - v.offset) v.offset v (by omega) (by omega)
      simp only [hr]
      have hBS : BLOCK_SIZE = 4096 := by decide
      have hro : r.offset = v.offset + min (fat.fileSize - v.offset) v.left.toNat := by
        by_cases hk : 1 ≤ fat.fileSize - v.offset
        · rw [r4 hk]
          exact Nat.mod_eq_of_lt (by omega)
        · have hk0 : fat.fileSize - v.offset = 0 := by omega
          rw [r5 hk0, hk0]; simp
      have hcond : ¬ (r.left > 0 ∧ r.offset ≠ fat.fileSize) := by
        intro ⟨c1, c2⟩
        rw [r1] at c1
        apply c2
        rw [hro]
        omega
      simp only [if_neg hcond]
      refine ⟨true, r, rfl, by rw [hro]; omega, fun _ => ⟨rfl, r2, hro, r7⟩⟩
    · simp only [block_read, if_neg hfb]
      exact ⟨false, v, rfl, hoff, fun h => absurd h hfb⟩
  · simp only [if_neg hl]
    have h0 : v.left.toNat = 0 := by omega
    refine ⟨true, v, rfl, hoff, fun _ => ⟨rfl, by simp [h0], by simp [h0], fun j hj => ?_⟩⟩
    simp [h0] at hj

/-- What `fs_read` does on a file of at most one block (`fileSize ≤ BLOCK_SIZE`)
through an occupied descriptor whose cursor is within the file: it never
leaves `current_block`, it touches nothing but the descriptor's cursor, and
the cursor stays within the file.  When the first listed block is a valid block
number the call returns `min(nbyte, fileSize - offset)`, advances the cursor by
that count, and the bytes stored in `buf` are the bytes of that block from the
cursor on. -/
theorem fs_read_single_block (s : FS) (fildes : Int) (nbyte : Nat)
    (hfd : badFd s fildes = false)
    (hsz : (s.fatTable (s.file_descriptors fildes.toNat).fatNum).fileSize ≤ BLOCK_SIZE)
    (hoff : (s.file_descriptors fildes.toNat).offset
      ≤ (s.fatTable (s.file_descriptors fildes.toNat).fatNum).fileSize) :
    ∃ ret cursor out,
      fs_read s fildes nbyte =
        some (ret,
          { s with
            file_descriptors :=
              setAt s.file_descriptors fildes.toNat
                { s.file_descriptors fildes.toNat with offset := cursor } },
          out)
      ∧ cursor ≤ (s.fatTable (s.file_descriptors fildes.toNat).fatNum).fileSize
      ∧ ((s.fatTable (s.file_descriptors fildes.toNat).fatNum).single_out_offset 0 < DISK_BLOCKS →
          ret = ((min nbyte ((s.fatTable (s.file_descriptors fildes.toNat).fatNum).fileSize
                  - (s.file_descriptors fildes.toNat).offset) : Nat) : Int)
          ∧ cursor = (s.file_descriptors fildes.toNat).offset
              + min nbyte ((s.fatTable (s.file_descriptors fildes.toNat).fatNum).fileSize
                  - (s.file_descriptors fildes.toNat).offset)
          ∧ (∀ j, j < min nbyte ((s.fatTable (s.file_descriptors fildes.toNat).fatNum).fileSize
                  - (s.file_descriptors fildes.toNat).offset) →
              out[j]? = some (s.disk.data
                ((s.fatTable (s.file_descriptors fildes.toNat).fatNum).single_out_offset 0)
                ((s.file_descriptors fildes.toNat).offset + j)))) := by
  have hBS : BLOCK_SIZE = 4096 := by decide
  generalize hn : (if nbyte > (s.fatTable (s.file_descriptors fildes.toNat).fatNum).fileSize
    then (s.fatTable (s.file_descriptors fildes.toNat).fatNum).fileSize else nbyte) = n
  have hn_le : n ≤ (s.fatTable (s.file_descriptors fildes.toNat).fatNum).fileSize := by
    rw [← hn]; split <;> omega
  have hn_min : n = min nbyte (s.fatTable (s.file_descriptors fildes.toNat).fatNum).fileSize := by
    rw [← hn]; split <;> omega
  have hint : toInt32 n = (n : Int) := toInt32_of_lt n (by omega)
  obtain ⟨ok, r, hr, r1, r2⟩ := readLoop_single
    (s.fatTable (s.file_descriptors fildes.toNat).fatNum) s.disk n
    ((s.fatTable (s.file_descriptors fildes.toNat).fatNum).single_out_offset 0)
    { str := fun _ => 0, bytes_read := 0,
      offset := (s.file_descriptors fildes.toNat).offset, left := (n : Int) } hsz hoff
  simp only at hr r1 r2
  have hres : fs_read s fildes nbyte =
      some (if ok = true then ((r.bytes_read : Nat) : Int) else -1,
        { s with
          file_descriptors :=
            setAt s.file_descriptors fildes.toNat
              { s.file_descriptors fildes.toNat with offset := r.offset } },
        if ok = true then (List.range (n + 1)).map (setAt r.str r.bytes_read 0) else []) := by
    unfold fs_read
    simp only [hfd, Bool.false_eq_true, if_false, hn, if_neg (by omega :
      ¬ (s.file_descriptors fildes.toNat).offset
        > (s.fatTable (s.file_descriptors fildes.toNat).fatNum).fileSize),
      seekBlock_small _ _ (by omega : (s.file_descriptors fildes.toNat).offset ≤ BLOCK_SIZE),
      if_neg (by omega : ¬ 0 > (s.fatTable (s.file_descriptors fildes.toNat).fatNum).blocks),
      hint, hr]
    cases ok <;> simp
  refine ⟨_, r.offset, _, hres, r1, fun hfb => ?_⟩
  obtain ⟨q1, q2, q3, q4⟩ := r2 hfb
  simp only [Int.toNat_ofNat, Nat.zero_add] at q2 q3 q4
  have hmin : min ((s.fatTable (s.file_descriptors fildes.toNat).fatNum).fileSize
        - (s.file_descriptors fildes.toNat).offset) n
      = min nbyte ((s.fatTable (s.file_descriptors fildes.toNat).fatNum).fileSize
        - (s.file_descriptors fildes.toNat).offset) := by
    omega
  rw [hmin] at q2 q3 q4
  refine ⟨by simp only [q1, if_true, q2], q3, fun j hj => ?_⟩
  simp only [q1, if_true]
  have hjn : j < n + 1 := by omega
  rw [List.getElem?_map, List.getElem?_range hjn]
  simp only [Option.map_some']
  rw [setAt_other _ _ _ _ (by omega : j ≠ r.bytes_read)]
  rw [q4 j hj]

/-! ## C1, C4, C8, C10: `fs_read` on a file of more than one block -/

/-- C1 at the failing input `N = 6000`: on the fresh file system
`fs_create("a.txt")` returns 0, `fs_open("a.txt")` returns 0, `fs_write` of
6000 bytes `0x41` returns 6000 and leaves a file of size 6000, `fs_lseek(0, 0)`
returns 0, and `fs_read(0, buf, 6000)` then reads `current_block[i]` with
`i ≥ BLOCK_SIZE`: it does not return the 6000 bytes written. -/
theorem round_trip_6000_reads_outside_block :
    (fs_create freshFS "a.txt").1 = 0
    ∧ (fs_open (fs_create freshFS "a.txt").2 "a.txt").1 = 0
    ∧ (fs_write openedFS 0 bufA 6000 0).1 = 6000
    ∧ (wrote6000.fatTable 0).fileSize = 6000
    ∧ (fs_lseek wrote6000 0 0).1 = 0
    ∧ fs_read (fs_lseek wrote6000 0 0).2 0 6000 = none :=
  ⟨by decide, by decide,
   (fs_write_size openedFS 0 bufA 6000 0 0 0 (by decide) (by decide) (by decide)
      openedFS_blocks_lt (by decide)).1.trans (by decide),
   by decide!, by decide!, Option.isNone_iff_eq_none.1 (by decide!)⟩

/-- C4 at the failing input `L = 5000`: on a file of 6000 bytes
`fs_truncate(0, 5000)` returns 0 and `fs_get_filesize(0)` is then 5000,
`fs_lseek(0, 5000)` returns 0, but `fs_read(0, buf, 10)` returns 10 bytes, not
0, and leaves the cursor at 5010. -/
theorem truncate_5000_then_read_returns_bytes :
    (fs_truncate wrote6000 0 5000).1 = 0
    ∧ (fs_get_filesize (fs_truncate wrote6000 0 5000).2 0).1 = 5000
    ∧ (fs_lseek (fs_truncate wrote6000 0 5000).2 0 5000).1 = 0
    ∧ (fs_read (fs_lseek (fs_truncate wrote6000 0 5000).2 0 5000).2 0 10).map
        (fun r => (r.1, (r.2.1.file_descriptors 0).offset)) = some (10, 5010) :=
  ⟨by decide!, by decide!, by decide!, by decide!⟩

/-- C8 at the failing input `n = 5000`, `k = 0`: after `fs_create("x")` and
two `fs_open("x")` (descriptors 0 and 1), `fs_write(0, b, 5000)` returns 5000
and leaves descriptor 1 at cursor 0 and descriptor 0 at cursor 5000,
`fs_lseek(1, 0)` returns 0, and `fs_read(1, buf, 5000)` reads
`current_block[i]` with `i ≥ BLOCK_SIZE` instead of returning the 5000 bytes.
The spec's own instance `n = 10`, `k = 5` does return the last 5 bytes. -/
theorem shared_file_5000_reads_outside_block :
    (fs_write openedTwiceFS 0 bufIota 5000 0).1 = 5000
    ∧ ((fs_write openedTwiceFS 0 bufIota 5000 0).2.file_descriptors 1).offset = 0
    ∧ ((fs_write openedTwiceFS 0 bufIota 5000 0).2.file_descriptors 0).offset = 5000
    ∧ (fs_lseek (fs_write openedTwiceFS 0 bufIota 5000 0).2 1 0).1 = 0
    ∧ fs_read (fs_lseek (fs_write openedTwiceFS 0 bufIota 5000 0).2 1 0).2 1 5000 = none
    ∧ (fs_read (fs_lseek (fs_write openedTwiceFS 0 bufIota 10 0).2 1 5).2 1 5).map
        (fun r => (r.1, r.2.2.take 5)) = some (5, [5, 6, 7, 8, 9]) :=
  ⟨(fs_write_size openedTwiceFS 0 bufIota 5000 0 0 0 (by decide) (by decide) (by decide)
      (fun _ => (by decide : (0 : Nat) < DISK_BLOCKS)) (by decide)).1.trans (by decide),
   by decide!, by decide!, by decide!,
   Option.isNone_iff_eq_none.1 (by decide!), by decide!⟩

/-- C10 at the failing input `s = 5000`, `c = 4500`, `max_bytes = 1000`: the
descriptor is occupied with cursor 4500 on a file of size 5000, and `fs_read`
returns 1000 bytes, not `min(1000, 5000 - 4500) = 500`, leaving the cursor at
5500, beyond the size. -/
theorem read_clamp_fails_beyond_one_block :
    (fs_lseek wrote5000 0 4500).1 = 0
    ∧ ((fs_lseek wrote5000 0 4500).2.file_descriptors 0).occupodo = true
    ∧ ((fs_lseek wrote5000 0 4500).2.file_descriptors 0).offset = 4500
    ∧ ((fs_lseek wrote5000 0 4500).2.fatTable
        ((fs_lseek wrote5000 0 4500).2.file_descriptors 0).fatNum).fileSize = 5000
    ∧ (fs_read (fs_lseek wrote5000 0 4500).2 0 1000).map
        (fun r => (r.1, (r.2.1.file_descriptors 0).offset)) = some (1000, 5500) :=
  ⟨by decide!, by decide!, by decide!, by decide!, by decide!⟩

/-! ## The cursor invariant: steps that keep it -/

theorem fs_create_frame (s : FS) (name : String) :
    (fs_create s name).2.file_descriptors = s.file_descriptors
    ∧ (fs_create s name).2.fatTable = s.fatTable := by
  unfold fs_create
  split
  · exact ⟨rfl, rfl⟩
  · split
    · exact ⟨rfl, rfl⟩
    · dsimp only
      split <;> exact ⟨rfl, rfl⟩

theorem fs_delete_frame (s : FS) (name : String) :
    (fs_delete s name).2.file_descriptors = s.file_descriptors
    ∧ (fs_delete s name).2.fatTable = s.fatTable := by
  unfold fs_delete
  dsimp only
  split
  · exact ⟨rfl, rfl⟩
  · split <;> exact ⟨rfl, rfl⟩

theorem cursorInv_of_frame (s t : FS) (h : cursorInv s)
    (h1 : t.file_descriptors = s.file_descriptors) (h2 : t.fatTable = s.fatTable) :
    cursorInv t := by
  intro f hf hocc
  rw [h1] at hocc ⊢
  rw [h2]
  exact h f hf hocc

theorem fs_open_cursorInv (s : FS) (name : String) (h : cursorInv s) :
    cursorInv (fs_open s name).2 := by
  unfold fs_open
  dsimp only
  split
  · exact h
  · split
    · exact h
    · split
      · exact h
      · intro f hf hocc
        dsimp only at hocc ⊢
        by_cases hfc : f = scanFrom (fun i => !(s.file_descriptors i).occupodo) 32 0
        · rw [← hfc]; simp [setAt]
        · simp only [setAt_other _ _ _ _ hfc] at hocc ⊢
          exact h f hf hocc

theorem fs_close_cursorInv (s : FS) (fildes : Int) (h : cursorInv s) :
    cursorInv (fs_close s fildes).2 := by
  unfold fs_close
  split
  · exact h
  · intro f hf hocc
    dsimp only at hocc ⊢
    by_cases hfc : f = fildes.toNat
    · rw [← hfc] at hocc; simp [setAt] at hocc
    · simp only [setAt_other _ _ _ _ hfc] at hocc ⊢
      exact h f hf hocc

theorem fs_lseek_cursorInv (s : FS) (fildes offset : Int) (h : cursorInv s) :
    cursorInv (fs_lseek s fildes offset).2 := by
  unfold fs_lseek
  split
  · exact h
  · dsimp only
    split
    · exact h
    · rename_i hc
      intro f hf hocc
      dsimp only at hocc ⊢
      by_cases hfc : f = fildes.toNat
      · rw [hfc]
        simp only [setAt_same]
        have : offset.toNat % 2 ^ 32 ≤ offset.toNat := Nat.mod_le _ _
        omega
      · simp only [setAt_other _ _ _ _ hfc] at hocc ⊢
        exact h f hf hocc

theorem fs_truncate_cases (s : FS) (fildes length : Int) :
    fs_truncate s fildes length = (-1, s)
    ∨ (badFd s fildes = false ∧ 0 ≤ length
        ∧ length ≤ ((s.fatTable (s.file_descriptors fildes.toNat).fatNum).fileSize : Nat)
        ∧ fs_truncate s fildes length =
          (0, { s with
            file_descriptors :=
              if ((s.file_descriptors fildes.toNat).offset : Int) > length then
                setAt s.file_descriptors fildes.toNat
                  { s.file_descriptors fildes.toNat with offset := length.toNat % 2 ^ 32 }
              else s.file_descriptors,
            block_bitmap :=
              if (s.fatTable (s.file_descriptors fildes.toNat).fatNum).blocks
                  > length.toNat / BLOCK_SIZE + (if length.toNat % BLOCK_SIZE ≠ 0 then 1 else 0)
              then clear_bit s.block_bitmap
                ((s.fatTable (s.file_descriptors fildes.toNat).fatNum).blocks - 1)
              else s.block_bitmap,
            fatTable :=
              setAt s.fatTable (s.file_descriptors fildes.toNat).fatNum
                { s.fatTable (s.file_descriptors fildes.toNat).fatNum with
                  blocks := (length.toNat / BLOCK_SIZE
                    + (if length.toNat % BLOCK_SIZE ≠ 0 then 1 else 0)) % 65536,
                  fileSize := length.toNat % 65536 } })) := by
  unfold fs_truncate
  by_cases hb : badFd s fildes = true
  · left; simp only [hb, if_true]
  · have hb2 : badFd s fildes = false := by simpa using hb
    by_cases h1 : length < 0 ∨ length > ((DISK_BLOCKS * BLOCK_SIZE : Nat) : Int)
    · left; simp only [hb2, Bool.false_eq_true, if_false, if_pos h1]
    · by_cases h2 : length
          > ((s.fatTable (s.file_descriptors fildes.toNat).fatNum).fileSize : Nat)
      · left; simp only [hb2, Bool.false_eq_true, if_false, if_neg h1, if_pos h2]
      · right
        refine ⟨hb2, by omega, by omega, ?_⟩
        simp only [hb2, Bool.false_eq_true, if_false, if_neg h1, if_neg h2]

theorem fs_truncate_cursor (s : FS) (fildes length : Int)
    (hsz : (s.fatTable (s.file_descriptors fildes.toNat).fatNum).fileSize < 65536)
    (h : cursorInv s) (g : Nat) (hg : g < 32)
    (hocc : ((fs_truncate s fildes length).2.file_descriptors g).occupodo = true)
    (hsel : g = fildes.toNat ∨
      ((fs_truncate s fildes length).2.file_descriptors g).fatNum
        ≠ (s.file_descriptors fildes.toNat).fatNum) :
    ((fs_truncate s fildes length).2.file_descriptors g).offset
      ≤ ((fs_truncate s fildes length).2.fatTable
          ((fs_truncate s fildes length).2.file_descriptors g).fatNum).fileSize := by
  rcases fs_truncate_cases s fildes length with hr | ⟨hb, h0, hle, hr⟩
  · rw [hr] at hocc ⊢
    exact h g hg hocc
  · rw [hr] at hocc hsel ⊢
    have hv := (badFd_eq_false_iff s fildes).1 hb
    have hfl : fildes.toNat < 32 := by omega
    have hlen : length.toNat % 65536 = length.toNat := Nat.mod_eq_of_lt (by omega)
    have hinv := h fildes.toNat hfl hv.2.2
    by_cases h3 : ((s.file_descriptors fildes.toNat).offset : Int) > length
    · simp only [if_pos h3] at hocc hsel ⊢
      by_cases hgf : g = fildes.toNat
      · rw [hgf]
        simp only [setAt_same, hlen]
        exact Nat.mod_le _ _
      · simp only [setAt_other _ _ _ _ hgf] at hocc hsel ⊢
        have hne := hsel.resolve_left hgf
        simp only [setAt_other _ _ _ _ hne]
        exact h g hg hocc
    · simp only [if_neg h3] at hocc hsel ⊢
      by_cases hgf : g = fildes.toNat
      · rw [hgf]
        simp only [setAt_same, hlen]
        omega
      · have hne := hsel.resolve_left hgf
        simp only [setAt_other _ _ _ _ hne]
        exact h g hg hocc

theorem fs_read_beyond_size (s : FS) (fildes : Int) (nbyte : Nat)
    (hfd : badFd s fildes = false)
    (hoff : (s.file_descriptors fildes.toNat).offset
      > (s.fatTable (s.file_descriptors fildes.toNat).fatNum).fileSize) :
    fs_read s fildes nbyte = some (-1, s, []) := by
  unfold fs_read
  simp only [hfd, Bool.false_eq_true, if_false, if_pos hoff]

theorem fs_write_cursorInv (s : FS) (fildes : Int) (buf : Int → Nat) (nbyte : Nat)
    (bytes_written : Int) (h : cursorInv s)
    (hsoo : ∀ j,
      (s.fatTable (s.file_descriptors fildes.toNat).fatNum).single_out_offset j < DISK_BLOCKS)
    (hfit : nbyte + (s.fatTable (s.file_descriptors fildes.toNat).fatNum).fileSize < 65536) :
    cursorInv (fs_write s fildes buf nbyte bytes_written).2 := by
  by_cases hb : badFd s fildes = true
  · have : fs_write s fildes buf nbyte bytes_written = (-1, s) := by simp [fs_write, hb]
    rw [this]; exact h
  · have hb2 : badFd s fildes = false := by simpa using hb
    have hv := (badFd_eq_false_iff s fildes).1 hb2
    have hfl : fildes.toNat < 32 := by omega
    have hacc : (if nbyte + (s.fatTable (s.file_descriptors fildes.toNat).fatNum).fileSize
        > MAX_SIZE
      then MAX_SIZE - (s.fatTable (s.file_descriptors fildes.toNat).fatNum).fileSize
      else nbyte) = nbyte := by
      have : MAX_SIZE = 1048576 := by decide
      rw [if_neg (by omega)]
    obtain ⟨-, w2, -, -, w5, w6, w7, -, -, -, w11⟩ :=
      fs_write_spec s fildes buf nbyte bytes_written hb2 hsoo (by omega)
    rw [hacc] at w2 w11
    have hmod : ((s.fatTable (s.file_descriptors fildes.toNat).fatNum).fileSize + nbyte) % 65536
        = (s.fatTable (s.file_descriptors fildes.toNat).fatNum).fileSize + nbyte :=
      Nat.mod_eq_of_lt (by omega)
    rw [hmod] at w2
    have hinv := h fildes.toNat hfl hv.2.2
    intro g hg hocc
    by_cases hgf : g = fildes.toNat
    · rw [hgf, w5, w2]
      omega
    · rw [w6 g hgf] at hocc ⊢
      have hg_inv := h g hg hocc
      by_cases hn : (s.file_descriptors g).fatNum = (s.file_descriptors fildes.toNat).fatNum
      · rw [hn, w2]
        rw [hn] at hg_inv
        omega
      · rw [w7 _ hn]
        exact hg_inv

theorem fs_read_cursorInv (s : FS) (fildes : Int) (nbyte : Nat) (h : cursorInv s)
    (hsz : (s.fatTable (s.file_descriptors fildes.toNat).fatNum).fileSize ≤ BLOCK_SIZE) :
    ∃ r, fs_read s fildes nbyte = some r ∧ cursorInv r.2.1 := by
  by_cases hb : badFd s fildes = true
  · exact ⟨(-1, s, []), by simp [fs_read, hb], h⟩
  · have hb2 : badFd s fildes = false := by simpa using hb
    have hv := (badFd_eq_false_iff s fildes).1 hb2
    have hfl : fildes.toNat < 32 := by omega
    obtain ⟨ret, cursor, out, hr, hc, -⟩ :=
      fs_read_single_block s fildes nbyte hb2 hsz (h fildes.toNat hfl hv.2.2)
    refine ⟨_, hr, ?_⟩
    intro g hg hocc
    dsimp only at hocc ⊢
    by_cases hgf : g = fildes.toNat
    · rw [hgf]
      simp only [setAt_same]
      exact hc
    · simp only [setAt_other _ _ _ _ hgf] at hocc ⊢
      exact h g hg hocc

/-! ## C2: the cursor invariant -/

/-- With `"x"` open through descriptors 0 and 1, after `fs_write(0, buf, 10)`
the cursor invariant holds (both cursors within the size 10); `fs_truncate(1,
5)` returns 0 and leaves descriptor 0, still occupied, with cursor 10 on a
file of size 5: `fs_truncate` clamps the cursor of the calling descriptor
only. -/
theorem cursor_invariant_broken_by_truncate_elsewhere :
    cursorInv (fs_write openedTwiceFS 0 bufIota 10 0).2
    ∧ (fs_truncate (fs_write openedTwiceFS 0 bufIota 10 0).2 1 5).1 = 0
    ∧ ¬ cursorInv (fs_truncate (fs_write openedTwiceFS 0 bufIota 10 0).2 1 5).2 :=
  ⟨by decide!, by decide!, by decide!⟩

/-- The cursor and the stored size after `fs_write`, with the FAT record
number, the old size and the old cursor named: the cursor advances by the
accepted count (modulo `2 ^ 32`) while the size is reduced modulo 65536. -/
theorem fs_write_cursor_and_size (s : FS) (fildes : Int) (buf : Int → Nat) (nbyte : Nat)
    (bytes_written : Int) (n size cursor : Nat)
    (hfd : badFd s fildes = false)
    (hn : (s.file_descriptors fildes.toNat).fatNum = n)
    (hsize : (s.fatTable n).fileSize = size)
    (hcursor : (s.file_descriptors fildes.toNat).offset % 2 ^ 32 = cursor)
    (hsoo : ∀ j, (s.fatTable n).single_out_offset j < DISK_BLOCKS)
    (hnb : nbyte + size ≤ MAX_SIZE) :
    badFd (fs_write s fildes buf nbyte bytes_written).2 fildes = false
    ∧ ((fs_write s fildes buf nbyte bytes_written).2.file_descriptors fildes.toNat).fatNum = n
    ∧ ((fs_write s fildes buf nbyte bytes_written).2.fatTable n).fileSize
        = (size + nbyte) % 65536
    ∧ ((fs_write s fildes buf nbyte bytes_written).2.file_descriptors fildes.toNat).offset
          % 2 ^ 32 = (cursor + nbyte) % 2 ^ 32
    ∧ (∀ j, ((fs_write s fildes buf nbyte bytes_written).2.fatTable n).single_out_offset j
        < DISK_BLOCKS) := by
  subst hn
  subst hsize
  subst hcursor
  have hMAX : MAX_SIZE = 1048576 := by decide
  obtain ⟨-, h2, h3, h4, h5, -, -, -, -, h10, -⟩ :=
    fs_write_spec s fildes buf nbyte bytes_written hfd hsoo (by omega)
  rw [if_neg (by omega)] at h2 h3
  have hv := (badFd_eq_false_iff s fildes).1 hfd
  refine ⟨(badFd_eq_false_iff _ fildes).2 ⟨hv.1, hv.2.1, h4⟩, h5, h2, ?_, h10⟩
  rw [h3]
  omega

/-- A state in which an occupied descriptor's cursor exceeds the size of its
FAT record does not satisfy the cursor invariant. -/
theorem not_cursorInv_of_cursor_beyond (s : FS) (fildes : Int) (n size cursor : Nat)
    (hfd : badFd s fildes = false)
    (hn : (s.file_descriptors fildes.toNat).fatNum = n)
    (hsize : (s.fatTable n).fileSize = size)
    (hcursor : (s.file_descriptors fildes.toNat).offset % 2 ^ 32 = cursor)
    (hlt : size < cursor) : ¬ cursorInv s := by
  subst hn
  subst hsize
  subst hcursor
  intro hinv
  have hv := (badFd_eq_false_iff s fildes).1 hfd
  have := hinv fildes.toNat (by omega) hv.2.2
  have hle : (s.file_descriptors fildes.toNat).offset % 2 ^ 32
      ≤ (s.file_descriptors fildes.toNat).offset := Nat.mod_le _ _
  omega

/-- C2 at the failing inputs.  On a file of 5000 bytes with the cursor of
descriptor 0 at 4500 the invariant holds; `fs_read(0, buf, 1000)` returns 1000
and leaves the cursor at 5500 on the file of size 5000, so the invariant fails
after the call.  And on a file of 60000 bytes with the cursor at 60000 the
invariant holds; `fs_write(0, buf, 6000)` leaves the stored size 464 and the
cursor at 66000 (stated modulo `2 ^ 32`), so the invariant fails after the
call. -/
theorem cursor_invariant_broken_by_read_and_write :
    cursorInv (fs_lseek wrote5000 0 4500).2
    ∧ (fs_read (fs_lseek wrote5000 0 4500).2 0 1000).map
        (fun r => (r.1, (r.2.1.file_descriptors 0).offset, (r.2.1.fatTable 0).fileSize,
          decide (cursorInv r.2.1))) = some (1000, 5500, 5000, false)
    ∧ cursorInv (fs_write openedFS 0 bufA 60000 0).2
    ∧ ((fs_write (fs_write openedFS 0 bufA 60000 0).2 0 bufA 6000 0).2.fatTable 0).fileSize
        = 464
    ∧ ((fs_write (fs_write openedFS 0 bufA 60000 0).2 0 bufA 6000 0).2.file_descriptors
        (0 : Int).toNat).offset % 2 ^ 32 = 66000
    ∧ ¬ cursorInv (fs_write (fs_write openedFS 0 bufA 60000 0).2 0 bufA 6000 0).2 := by
  have hb : badFd openedFS 0 = false := by decide
  have hinv1 : cursorInv (fs_write openedFS 0 bufA 60000 0).2 :=
    fs_write_cursorInv openedFS 0 bufA 60000 0 (by decide)
      (fun _ => (by decide : (0 : Nat) < DISK_BLOCKS)) (by decide)
  obtain ⟨b1, b2, b3, b4, b5⟩ := fs_write_cursor_and_size openedFS 0 bufA 60000 0 0 0 0 hb
    (by decide) (by decide) (by decide) openedFS_blocks_lt (by decide)
  obtain ⟨c1, c2, c3, c4, -⟩ := fs_write_cursor_and_size (fs_write openedFS 0 bufA 60000 0).2
    0 bufA 6000 0 0 ((0 + 60000) % 65536) ((0 + 60000) % 2 ^ 32) b1 b2 b3 b4 b5 (by decide)
  have hbad := not_cursorInv_of_cursor_beyond
    (fs_write (fs_write openedFS 0 bufA 60000 0).2 0 bufA 6000 0).2 0 0
    (((0 + 60000) % 65536 + 6000) % 65536) (((0 + 60000) % 2 ^ 32 + 6000) % 2 ^ 32)
    c1 c2 c3 c4 (by decide)
  exact ⟨by decide!, by decide!, hinv1, c3.trans (by decide), c4.trans (by decide), hbad⟩

/-! ## C11: when `fs_create` fails -/

theorem freeSlotScan_eq_end_iff (occ : Nat → Bool) (n : Nat) :
    scanFrom (fun i => !occ i) n 0 = n ↔ ∀ i, i < n → occ i = true := by
  have h := scanFrom_eq_end (fun i => !occ i) n 0
  simp only [Nat.zero_add, Nat.zero_le, true_implies] at h
  rw [h]
  constructor
  · intro hh i hi; simpa using hh i hi
  · intro hh i hi; simp [hh i hi]

/-- The failure conditions of `fs_create` as the code has them: the call
returns -1 exactly when the name has more than 15 bytes, or an occupied
entry carries the name, or all 64 entries are occupied; it then changes
nothing, and otherwise it returns 0. -/
theorem fs_create_fails_iff (s : FS) (name : String) :
    ((fs_create s name).1 = -1 ↔
      (strlen name > 15
        ∨ (∃ i, i < 64 ∧ (s.directory_entry_table i).occupodo = true
            ∧ (s.directory_entry_table i).name = name)
        ∨ (∀ i, i < 64 → (s.directory_entry_table i).occupodo = true)))
    ∧ ((fs_create s name).1 = -1 → (fs_create s name).2 = s)
    ∧ ((fs_create s name).1 ≠ -1 → (fs_create s name).1 = 0) := by
  have hfind := findName_eq_end s name
  have hfull := freeSlotScan_eq_end_iff (fun i => (s.directory_entry_table i).occupodo) 64
  by_cases hl : strlen name > 15
  · have hr : fs_create s name = (-1, s) := by simp only [fs_create, if_pos hl]
    rw [hr]
    exact ⟨⟨fun _ => Or.inl hl, fun _ => rfl⟩, fun _ => rfl, fun h => absurd rfl h⟩
  · by_cases hd : findName s name ≠ 64
    · have hr : fs_create s name = (-1, s) := by simp only [fs_create, if_neg hl, if_pos hd]
      rw [hr]
      refine ⟨⟨fun _ => Or.inr (Or.inl ?_), fun _ => rfl⟩, fun _ => rfl, fun h => absurd rfl h⟩
      by_contra hno
      apply hd
      rw [hfind]
      intro i hi hc
      exact hno ⟨i, hi, hc.1, hc.2⟩
    · have hd2 : findName s name = 64 := by simpa using hd
      have hnodup := hfind.1 hd2
      by_cases hf : scanFrom (fun i => !(s.directory_entry_table i).occupodo) 64 0 = 64
      · have hr : fs_create s name = (-1, s) := by
          simp only [fs_create, if_neg hl, if_neg hd, if_pos hf]
        rw [hr]
        exact ⟨⟨fun _ => Or.inr (Or.inr (hfull.1 hf)), fun _ => rfl⟩, fun _ => rfl,
          fun h => absurd rfl h⟩
      · have hr : (fs_create s name).1 = 0 := by
          simp only [fs_create, if_neg hl, if_neg hd, if_neg hf]
        rw [hr]
        refine ⟨⟨fun h => by simp at h, fun h => ?_⟩, fun h => by simp at h, fun _ => rfl⟩
        rcases h with h | ⟨i, hi, h1, h2⟩ | h
        · exact absurd h hl
        · exact absurd ⟨h1, h2⟩ (hnodup i hi)
        · exact absurd (hfull.2 h) hf

/-- C11 at the failing input: a name of 15 characters is longer than the 14
that fit `char name[15]` with the terminator, no entry of the fresh file
system is occupied, and `fs_create` returns 0 and stores the name in entry 0;
only a name of 16 characters is refused. -/
theorem create_accepts_15_character_name :
    name15.length = 15
    ∧ strlen name15 = 15
    ∧ (∀ i, i < 64 → (freshFS.directory_entry_table i).occupodo = false)
    ∧ (fs_create freshFS name15).1 = 0
    ∧ ((fs_create freshFS name15).2.directory_entry_table 0).occupodo = true
    ∧ ((fs_create freshFS name15).2.directory_entry_table 0).name = name15
    ∧ name16.length = 16
    ∧ strlen name16 = 16
    ∧ (fs_create freshFS name16).1 = -1 :=
  ⟨by decide, by decide, by decide, by decide, by decide, by decide, by decide, by decide,
   by decide⟩

/-! ## C12: metadata across `umount_fs` and `mount_fs` -/

/-- What `umount_fs` followed by `mount_fs` keeps: the bitmap, the directory
table, the FAT records 0, 1 and 2 (the part of the table that fits the one
block written), and a descriptor table with every slot unoccupied. -/
theorem remount_keeps (s : FS) (fd_count : Int) :
    (mount_fs fd_count (umount_fs s)).block_bitmap = s.block_bitmap
    ∧ (mount_fs fd_count (umount_fs s)).directory_entry_table = s.directory_entry_table
    ∧ (∀ r, r < 3 → (mount_fs fd_count (umount_fs s)).fatTable r = s.fatTable r)
    ∧ (∀ f, ((mount_fs fd_count (umount_fs s)).file_descriptors f).occupodo = false) := by
  refine ⟨rfl, rfl, ?_, fun _ => rfl⟩
  intro r hr
  simp [mount_fs, umount_fs, fatBlockImage, hr]

/-- C12 at the failing input: five files are created, `"f4"` (FAT record 4) is
opened and 10 bytes are written to it, so its record has size 10 and one
block; after `umount_fs` and `mount_fs` the record has size 0 and no block,
while the directory entry of `"f4"` is still occupied. -/
theorem remount_loses_fat_record_4 :
    (createAll freshFS ["f0", "f1", "f2", "f3", "f4"]).1 = [0, 0, 0, 0, 0]
    ∧ (fs_open fiveFiles "f4").1 = 0
    ∧ ((fs_open fiveFiles "f4").2.file_descriptors 0).fatNum = 4
    ∧ (wroteF4.fatTable 4).fileSize = 10
    ∧ (wroteF4.fatTable 4).blocks = 1
    ∧ ((mount_fs wroteF4.fd_count (umount_fs wroteF4)).fatTable 4).fileSize = 0
    ∧ ((mount_fs wroteF4.fd_count (umount_fs wroteF4)).fatTable 4).blocks = 0
    ∧ ((mount_fs wroteF4.fd_count (umount_fs wroteF4)).directory_entry_table 4).occupodo = true
    ∧ ((mount_fs wroteF4.fd_count (umount_fs wroteF4)).directory_entry_table 4).name = "f4" := by
  decide!

/-! ## C13, C20: `fs_write` at a cursor beyond the blocks of the request -/

/-- C13 at the failing input: a write of 6000 bytes to the fresh file leaves 2
blocks, as claimed; a write of 4096 bytes leaves one block and the cursor at
4096, and a second write of 4096 bytes appended there leaves the record with
one block and size 8192, where `ceil((4096 + 4096) / 4096) = 2`. -/
theorem append_at_block_boundary_allocates_nothing :
    (wrote6000.fatTable 0).blocks = 2
    ∧ (wrote4096.fatTable 0).blocks = 1
    ∧ (wrote4096.file_descriptors 0).offset = 4096
    ∧ (wrote4096twice.fatTable 0).blocks = 1
    ∧ (wrote4096twice.fatTable 0).fileSize = 8192
    ∧ (wrote4096twice.file_descriptors 0).offset = 8192 := by
  decide!

/-- C20 at the failing input: after the first write of 4096 bytes the file's
only block is block 4 and block 0 (the superblock) still holds zeros; the
second write of 4096 bytes `0x41`, appended at cursor 4096, leaves the record
with the one block 4 and fills block 0 with `0x41`. -/
theorem append_at_block_boundary_overwrites_block_0 :
    (wrote4096.fatTable 0).blocks = 1
    ∧ (wrote4096.fatTable 0).single_out_offset 0 = 4
    ∧ wrote4096.disk.data 0 0 = 0
    ∧ wrote4096.disk.data 0 4095 = 0
    ∧ (wrote4096twice.fatTable 0).blocks = 1
    ∧ (wrote4096twice.fatTable 0).single_out_offset 0 = 4
    ∧ wrote4096twice.disk.data 0 0 = 0x41
    ∧ wrote4096twice.disk.data 0 4095 = 0x41 := by
  decide!

/-! ## C14, C15: the bit that `fs_truncate` clears -/

/-- C14 at the failing input: the file of 6000 bytes holds the blocks 4 and
5; `fs_truncate(0, 0)` returns 0 and leaves size 0 and block count 0, but the
bits of blocks 4 and 5 are still set and the bit of the reserved block 1 is
now clear. -/
theorem truncate_clears_bit_of_block_count :
    (wrote6000.fatTable 0).blocks = 2
    ∧ (wrote6000.fatTable 0).single_out_offset 0 = 4
    ∧ (wrote6000.fatTable 0).single_out_offset 1 = 5
    ∧ get_bit wrote6000.block_bitmap 1 = true
    ∧ (fs_truncate wrote6000 0 0).1 = 0
    ∧ ((fs_truncate wrote6000 0 0).2.fatTable 0).blocks = 0
    ∧ ((fs_truncate wrote6000 0 0).2.fatTable 0).fileSize = 0
    ∧ get_bit (fs_truncate wrote6000 0 0).2.block_bitmap 4 = true
    ∧ get_bit (fs_truncate wrote6000 0 0).2.block_bitmap 5 = true
    ∧ get_bit (fs_truncate wrote6000 0 0).2.block_bitmap 1 = false := by
  decide!

theorem bitmapInv_of_first_byte (s : FS)
    (hres : ∀ i, i < 4 → get_bit s.block_bitmap i = true)
    (hlow : ∀ i, i < 8 → 4 ≤ i →
      (get_bit s.block_bitmap i = true ↔
        ∃ r, r < 64 ∧ ∃ j, j < (s.fatTable r).blocks
          ∧ (s.fatTable r).single_out_offset j = i))
    (hzero : ∀ k, k < 1024 → 1 ≤ k → s.block_bitmap k = 0)
    (hlist : ∀ r, r < 64 → ∀ j, j < (s.fatTable r).blocks →
      (s.fatTable r).single_out_offset j < 8) :
    bitmapInv s := by
  refine ⟨hres, ?_⟩
  intro i hi h4
  by_cases h8 : i < 8
  · exact hlow i h8 h4
  · have hD : DISK_BLOCKS = 8192 := by decide
    have hz := hzero (i / 8) (by omega) (by omega)
    have hg : get_bit s.block_bitmap i = false := by
      simp [get_bit, CHAR_BIT, hz]
    rw [hg]
    constructor
    · intro h; simp at h
    · rintro ⟨r, hr, j, hj, he⟩
      have := hlist r hr j hj
      omega

/-- C15 at the failing input: the bitmap invariant holds on the fresh file
system and after the write of 6000 bytes, and fails after `fs_truncate(0, 0)`:
the bit of the reserved block 1 is clear, and the bit of block 4 is set though
no FAT record lists block 4 among its first `blocks` entries. -/
theorem bitmap_invariant_broken_by_truncate :
    bitmapInv freshFS
    ∧ bitmapInv wrote6000
    ∧ ¬ bitmapInv (fs_truncate wrote6000 0 0).2
    ∧ get_bit (fs_truncate wrote6000 0 0).2.block_bitmap 1 = false
    ∧ get_bit (fs_truncate wrote6000 0 0).2.block_bitmap 4 = true
    ∧ (∀ r, r < 64 → ∀ j, j < ((fs_truncate wrote6000 0 0).2.fatTable r).blocks →
        ((fs_truncate wrote6000 0 0).2.fatTable r).single_out_offset j ≠ 4) :=
  ⟨bitmapInv_of_first_byte freshFS (by decide) (by decide) (by decide!) (by decide!),
   bitmapInv_of_first_byte wrote6000 (by decide!) (by decide!) (by decide!) (by decide!),
   by decide!⟩

/-! ## C16: the ref-count bookkeeping -/

/-- C16 at the failing inputs.  With the files `"a"` (entry 0) and `"b"`
(entry 1), `fs_open("b")` returns descriptor 0 bound to FAT record 1 and
increments the ref-count of entry 0, the entry whose index is the descriptor
number, while the ref-count of the matched entry 1 stays 0; `fs_close(0)` then
changes no ref-count.  And with `"a.txt"` open once through descriptor 0
(entry 0, ref-count 1), `fs_close(0)` leaves the ref-count of entry 0 at
-63. -/
theorem ref_count_indexed_by_descriptor :
    (fs_open twoFiles "b").1 = 0
    ∧ ((fs_open twoFiles "b").2.directory_entry_table 1).name = "b"
    ∧ ((fs_open twoFiles "b").2.file_descriptors 0).fatNum
        = ((fs_open twoFiles "b").2.directory_entry_table 1).fatNum
    ∧ ((fs_open twoFiles "b").2.directory_entry_table 1).ref_count = 0
    ∧ ((fs_open twoFiles "b").2.directory_entry_table 0).ref_count = 1
    ∧ (fs_close (fs_open twoFiles "b").2 0).1 = 0
    ∧ ((fs_close (fs_open twoFiles "b").2 0).2.directory_entry_table 0).ref_count = 1
    ∧ ((fs_close (fs_open twoFiles "b").2 0).2.directory_entry_table 1).ref_count = 0
    ∧ (openedFS.directory_entry_table 0).ref_count = 1
    ∧ (fs_close openedFS 0).1 = 0
    ∧ ((fs_close openedFS 0).2.directory_entry_table 0).ref_count = -63 := by
  decide!

/-! ## C17: the offset-to-block translation -/

/-- The translation loop in closed form: for a cursor `o > 0` the loop
`while (file_offset > BLOCK_SIZE)` ends with block index `(o - 1) / BLOCK_SIZE`
and in-block offset `(o - 1) % BLOCK_SIZE + 1`, a value in `1 .. BLOCK_SIZE`;
for `o = 0` it ends with `(0, 0)`. -/
theorem seekBlock_closed_form (k : Nat) : ∀ (file_offset block_idx : Nat),
    file_offset ≤ k → 0 < file_offset →
    seekBlock k file_offset block_idx
      = ((file_offset - 1) % BLOCK_SIZE + 1, block_idx + (file_offset - 1) / BLOCK_SIZE) := by
  have hBS : BLOCK_SIZE = 4096 := by decide
  induction k with
  | zero => intro fo bi h h0; omega
  | succ k ih =>
    intro fo bi h h0
    unfold seekBlock
    by_cases hgt : fo > BLOCK_SIZE
    · rw [if_pos hgt, ih (fo - BLOCK_SIZE) (bi + 1) (by omega) (by omega)]
      rw [hBS] at hgt ⊢
      apply Prod.ext
      · show (fo - 4096 - 1) % 4096 + 1 = (fo - 1) % 4096 + 1
        omega
      · show bi + 1 + (fo - 4096 - 1) / 4096 = bi + (fo - 1) / 4096
        omega
    · rw [if_neg hgt]
      rw [hBS] at hgt ⊢
      apply Prod.ext
      · show fo = (fo - 1) % 4096 + 1
        omega
      · show bi = bi + (fo - 1) / 4096
        omega

/-- The translation agrees with floor division exactly off the block
boundaries: for a cursor `o` that is 0 or not a multiple of `BLOCK_SIZE` the
loop yields `(o % BLOCK_SIZE, o / BLOCK_SIZE)`. -/
theorem seekBlock_off_boundary (o : Nat) (h : o = 0 ∨ o % BLOCK_SIZE ≠ 0) :
    seekBlock o o 0 = (o % BLOCK_SIZE, o / BLOCK_SIZE) := by
  have hBS : BLOCK_SIZE = 4096 := by decide
  rcases Nat.eq_zero_or_pos o with h0 | h0
  · subst h0; rfl
  · have hm : o % BLOCK_SIZE ≠ 0 := by
      rcases h with h | h
      · omega
      · exact h
    rw [seekBlock_closed_form o o 0 (Nat.le_refl _) h0]
    rw [hBS] at hm ⊢
    apply Prod.ext
    · show (o - 1) % 4096 + 1 = o % 4096
      omega
    · show 0 + (o - 1) / 4096 = o / 4096
      omega

/-- C17 at the failing inputs: for the cursor 4096 the translation loop of
`fs_read` and `fs_write` ends with block index 0 and in-block offset 4096,
not `(4096 / 4096, 4096 % 4096) = (1, 0)`, and for the cursor 8192 with block
index 1 and in-block offset 4096, not `(2, 0)`; the in-block offset is not
below 4096.  Off the boundary, at 4097, the loop agrees with the division. -/
theorem translation_at_block_boundary :
    seekBlock 4096 4096 0 = (4096, 0)
    ∧ (4096 % BLOCK_SIZE, 4096 / BLOCK_SIZE) = (0, 1)
    ∧ seekBlock 8192 8192 0 = (4096, 1)
    ∧ (8192 % BLOCK_SIZE, 8192 / BLOCK_SIZE) = (0, 2)
    ∧ seekBlock 4097 4097 0 = (4097 % BLOCK_SIZE, 4097 / BLOCK_SIZE) :=
  ⟨by decide, by decide, by decide, by decide, by decide⟩

/-! ## C18: `fs_create` on a directory slot that was used before -/

/-- C18 at the failing input: `"a.txt"` is created, opened, 10 bytes are
written, it is closed and deleted (both calls return 0); `fs_create("b")`
returns 0 and takes directory slot 0, whose entry then has ref-count -63 and
whose FAT record still has size 10 and one block, so `fs_open("b")` followed
by `fs_get_filesize` returns 10. -/
theorem create_reuses_stale_record :
    (fs_close (fs_write openedFS 0 bufA 10 0).2 0).1 = 0
    ∧ (fs_delete (fs_close (fs_write openedFS 0 bufA 10 0).2 0).2 "a.txt").1 = 0
    ∧ (fs_create (fs_delete (fs_close (fs_write openedFS 0 bufA 10 0).2 0).2 "a.txt").2 "b").1
        = 0
    ∧ (reusedSlot.directory_entry_table 0).occupodo = true
    ∧ (reusedSlot.directory_entry_table 0).name = "b"
    ∧ (reusedSlot.directory_entry_table 0).ref_count = -63
    ∧ (reusedSlot.fatTable (reusedSlot.directory_entry_table 0).fatNum).fileSize = 10
    ∧ (reusedSlot.fatTable (reusedSlot.directory_entry_table 0).fatNum).blocks = 1
    ∧ (fs_open reusedSlot "b").1 = 0
    ∧ (fs_get_filesize (fs_open reusedSlot "b").2 0).1 = 10 := by
  decide!

/-! ## C19: first-fit allocation -/

/-- C19 at the failing input.  File `"a"` (FAT record 0) gets the blocks 4 to
8 by a write of 20480 bytes; `fs_truncate(0, 16384)` returns 0, keeps the
first four of them and clears the bit of block 4, the record's first block;
the next write, of one byte `0x42` to the empty file `"b"` (FAT record 1),
takes block 4, the smallest index whose bit is clear: block 4 is then listed
by both records, and the first byte of file `"a"` is overwritten. -/
theorem block_handed_to_two_records :
    (twoOpen.file_descriptors 0).fatNum = 0
    ∧ (twoOpen.file_descriptors 1).fatNum = 1
    ∧ (fiveBlocks.fatTable 0).blocks = 5
    ∧ (fiveBlocks.fatTable 0).single_out_offset 0 = 4
    ∧ (fiveBlocks.fatTable 0).single_out_offset 4 = 8
    ∧ get_bit fiveBlocks.block_bitmap 4 = true
    ∧ fiveBlocks.disk.data 4 0 = 0x41
    ∧ (fs_truncate fiveBlocks 0 16384).1 = 0
    ∧ (fiveBlocksCut.fatTable 0).blocks = 4
    ∧ (fiveBlocksCut.fatTable 0).single_out_offset 0 = 4
    ∧ get_bit fiveBlocksCut.block_bitmap 4 = false
    ∧ get_bit fiveBlocksCut.block_bitmap 8 = true
    ∧ (handedTwice.fatTable 0).blocks = 4
    ∧ (handedTwice.fatTable 0).single_out_offset 0 = 4
    ∧ (handedTwice.fatTable 1).blocks = 1
    ∧ (handedTwice.fatTable 1).single_out_offset 0 = 4
    ∧ handedTwice.disk.data 4 0 = 0x42 := by
  decide!

/-! ## The bitmap helpers and one round of the allocation loop -/

theorem and_two_pow_ne_zero_iff (x k : Nat) : x &&& 2 ^ k ≠ 0 ↔ x.testBit k = true := by
  constructor
  · intro h
    by_contra hb
    apply h
    apply Nat.eq_of_testBit_eq
    intro j
    simp only [Nat.testBit_and, Nat.zero_testBit, Nat.testBit_two_pow]
    by_cases hkj : k = j
    · subst hkj; simp [hb]
    · simp [hkj]
  · intro hb h0
    have := Nat.testBit_and x (2 ^ k) k
    rw [h0, Nat.zero_testBit, hb, Nat.testBit_two_pow_self] at this
    simp at this

theorem get_bit_eq_testBit (bitmap : Nat → Nat) (block : Nat) :
    get_bit bitmap block = (bitmap (block / 8)).testBit (block % 8) := by
  unfold get_bit
  simp only [CHAR_BIT, Nat.one_shiftLeft]
  by_cases h : (bitmap (block / 8)).testBit (block % 8) = true
  · rw [h]; simpa using (and_two_pow_ne_zero_iff _ _).2 h
  · have h2 : ¬ (bitmap (block / 8) &&& 2 ^ (block % 8) ≠ 0) :=
      fun hc => h ((and_two_pow_ne_zero_iff _ _).1 hc)
    simp only [Bool.not_eq_true] at h
    rw [h]
    simpa using h2

theorem get_bit_set_bit (bitmap : Nat → Nat) (i j : Nat) :
    get_bit (set_bit bitmap i) j = if j = i then true else get_bit bitmap j := by
  rw [get_bit_eq_testBit, get_bit_eq_testBit]
  unfold set_bit
  simp only [CHAR_BIT, Nat.one_shiftLeft]
  have h256 : (256 : Nat) = 2 ^ 8 := by decide
  have hj8 : j % 8 < 8 := Nat.mod_lt _ (by decide)
  by_cases hb : j / 8 = i / 8
  · rw [hb, setAt_same, h256, Nat.testBit_mod_two_pow, Nat.testBit_or, Nat.testBit_two_pow]
    by_cases hm : i % 8 = j % 8
    · have hji : j = i := by omega
      simp [hm, hj8, hji]
    · have hji : ¬ j = i := by omega
      simp [hm, hj8, hji]
  · have hji : ¬ j = i := fun h => hb (by rw [h])
    rw [setAt_other _ _ _ _ hb, if_neg hji]

theorem get_bit_clear_bit (bitmap : Nat → Nat) (i j : Nat) :
    get_bit (clear_bit bitmap i) j = if j = i then false else get_bit bitmap j := by
  rw [get_bit_eq_testBit, get_bit_eq_testBit]
  unfold clear_bit
  simp only [CHAR_BIT, Nat.one_shiftLeft]
  have hi8 : i % 8 < 8 := Nat.mod_lt _ (by decide)
  have hj8 : j % 8 < 8 := Nat.mod_lt _ (by decide)
  have hlt : 2 ^ (i % 8) < 2 ^ 8 := Nat.pow_lt_pow_right (by decide) hi8
  have h255 : 255 - 2 ^ (i % 8) = 2 ^ 8 - (2 ^ (i % 8) + 1) := by
    have : (2 : Nat) ^ 8 = 256 := by decide
    omega
  by_cases hb : j / 8 = i / 8
  · rw [hb, setAt_same, Nat.testBit_and, h255, Nat.testBit_two_pow_sub_succ hlt,
      Nat.testBit_two_pow]
    by_cases hm : i % 8 = j % 8
    · have hji : j = i := by omega
      simp [hm, hji]
    · have hji : ¬ j = i := by omega
      simp [hm, hj8, hji]
  · have hji : ¬ j = i := fun h => hb (by rw [h])
    rw [setAt_other _ _ _ _ hb, if_neg hji]

/-- One round of the allocation loop of `fs_write`, for a record that still
needs a block: the index it takes is the smallest index below `DISK_BLOCKS`
whose bit is clear, it is stored at position `blocks` of the list, and its bit
is set, no other bit changing, before the next round; when every bit is set
the loop ends with the record and the bitmap as they were. -/
theorem allocLoop_round (need : Int) (k : Nat) (fat : FAT) (bitmap : Nat → Nat)
    (h : ((fat.blocks : Nat) : Int) < need) :
    ((∀ i, i < DISK_BLOCKS → get_bit bitmap i = true) →
        allocLoop need (k + 1) fat bitmap = (fat, bitmap))
    ∧ ((∃ i, i < DISK_BLOCKS ∧ get_bit bitmap i = false) →
        ∃ idx, idx < DISK_BLOCKS
          ∧ get_bit bitmap idx = false
          ∧ (∀ j, j < idx → get_bit bitmap j = true)
          ∧ (∀ j, get_bit (set_bit bitmap idx) j = if j = idx then true else get_bit bitmap j)
          ∧ allocLoop need (k + 1) fat bitmap =
              allocLoop need k
                { fat with
                  single_out_offset := setAt fat.single_out_offset fat.blocks idx,
                  blocks := (fat.blocks + 1) % 65536 }
                (set_bit bitmap idx)) := by
  have hend := scanFrom_eq_end (fun i => !get_bit bitmap i) DISK_BLOCKS 0
  simp only [Nat.zero_add, Nat.zero_le, true_implies] at hend
  constructor
  · intro hall
    have hfull : scanFrom (fun i => !get_bit bitmap i) DISK_BLOCKS 0 = DISK_BLOCKS :=
      hend.2 (fun j hj => by simp [hall j hj])
    simp only [allocLoop, if_pos h, hfull, if_true]
  · rintro ⟨i, hi, hclear⟩
    have hne : ¬ scanFrom (fun i => !get_bit bitmap i) DISK_BLOCKS 0 = DISK_BLOCKS := by
      intro hc
      have := hend.1 hc i hi
      simp [hclear] at this
    have hle := scanFrom_le (fun i => !get_bit bitmap i) DISK_BLOCKS 0
    have hlt : scanFrom (fun i => !get_bit bitmap i) DISK_BLOCKS 0 < DISK_BLOCKS := by omega
    refine ⟨scanFrom (fun i => !get_bit bitmap i) DISK_BLOCKS 0, hlt, ?_, ?_, ?_, ?_⟩
    · have := scanFrom_found (fun i => !get_bit bitmap i) DISK_BLOCKS 0 (by omega)
      simpa using this
    · intro j hj
      have := scanFrom_before (fun i => !get_bit bitmap i) DISK_BLOCKS 0 j (Nat.zero_le _) hj
      simpa using this
    · intro j; exact get_bit_set_bit bitmap _ j
    · simp only [allocLoop, if_pos h, if_neg hne]

/-- The bitmap after a successful `fs_truncate`: when the record holds more
blocks than the new length needs, the one bit cleared is the bit whose index
is the old block count minus one (not the bit of a listed block), and every
other bit keeps its value; otherwise no bit changes. -/
theorem fs_truncate_bitmap (s : FS) (fildes length : Int)
    (hok : (fs_truncate s fildes length).1 = 0) (j : Nat) :
    get_bit (fs_truncate s fildes length).2.block_bitmap j =
      if (s.fatTable (s.file_descriptors fildes.toNat).fatNum).blocks
            > length.toNat / BLOCK_SIZE + (if length.toNat % BLOCK_SIZE ≠ 0 then 1 else 0)
          ∧ j = (s.fatTable (s.file_descriptors fildes.toNat).fatNum).blocks - 1
      then false else get_bit s.block_bitmap j := by
  rcases fs_truncate_cases s fildes length with hr | ⟨-, -, -, hr⟩
  · rw [hr] at hok; simp at hok
  · rw [hr]
    dsimp only
    by_cases hgt : (s.fatTable (s.file_descriptors fildes.toNat).fatNum).blocks
        > length.toNat / BLOCK_SIZE + (if length.toNat % BLOCK_SIZE ≠ 0 then 1 else 0)
    · rw [if_pos hgt, get_bit_clear_bit]
      by_cases hj : j = (s.fatTable (s.file_descriptors fildes.toNat).fatNum).blocks - 1
      · rw [if_pos hj, if_pos ⟨hgt, hj⟩]
      · rw [if_neg hj, if_neg (fun hc => hj hc.2)]
    · rw [if_neg hgt, if_neg (fun hc => hgt hc.1)]

/-- The allocation of `fs_write` looks at the request only: when the record
already holds `ceil(accepted / BLOCK_SIZE)` blocks, `accepted` being the
request after the `MAX_SIZE` clamp, the call allocates nothing, wherever the
cursor stands: the bitmap, the block count and the block list keep their
values. -/
theorem fs_write_allocates_nothing (s : FS) (fildes : Int) (buf : Int → Nat) (nbyte : Nat)
    (bytes_written : Int)
    (hfd : badFd s fildes = false)
    (hnb : nbyte + (s.fatTable (s.file_descriptors fildes.toNat).fatNum).fileSize < 2 ^ 64)
    (hk : (if nbyte + (s.fatTable (s.file_descriptors fildes.toNat).fatNum).fileSize > MAX_SIZE
            then MAX_SIZE - (s.fatTable (s.file_descriptors fildes.toNat).fatNum).fileSize
            else nbyte)
          ≤ BLOCK_SIZE * (s.fatTable (s.file_descriptors fildes.toNat).fatNum).blocks) :
    (fs_write s fildes buf nbyte bytes_written).2.block_bitmap = s.block_bitmap
    ∧ ((fs_write s fildes buf nbyte bytes_written).2.fatTable
        (s.file_descriptors fildes.toNat).fatNum).blocks
        = (s.fatTable (s.file_descriptors fildes.toNat).fatNum).blocks
    ∧ ((fs_write s fildes buf nbyte bytes_written).2.fatTable
        (s.file_descriptors fildes.toNat).fatNum).single_out_offset
        = (s.fatTable (s.file_descriptors fildes.toNat).fatNum).single_out_offset := by
  have hMAX : MAX_SIZE = 1048576 := by decide
  have hBS : BLOCK_SIZE = 4096 := by decide
  generalize hacc : (if nbyte + (s.fatTable (s.file_descriptors fildes.toNat).fatNum).fileSize
      > MAX_SIZE
    then MAX_SIZE - (s.fatTable (s.file_descriptors fildes.toNat).fatNum).fileSize
    else nbyte) = accepted at hk
  have hacc_le : accepted ≤ MAX_SIZE := by
    rw [← hacc]; split <;> omega
  have hclamp : (if (nbyte + (s.fatTable (s.file_descriptors fildes.toNat).fatNum).fileSize)
        % 2 ^ 64 > MAX_SIZE
      then MAX_SIZE - (s.fatTable (s.file_descriptors fildes.toNat).fatNum).fileSize
      else nbyte) = accepted := by
    rw [Nat.mod_eq_of_lt hnb]; exact hacc
  have hdiv : toInt32 (accepted / BLOCK_SIZE) = ((accepted / BLOCK_SIZE : Nat) : Int) :=
    toInt32_of_lt _ (by rw [hBS]; omega)
  have hneed : ¬ (((s.fatTable (s.file_descriptors fildes.toNat).fatNum).blocks : Nat) : Int)
      < toInt32 (accepted / BLOCK_SIZE) + (if accepted % BLOCK_SIZE ≠ 0 then 1 else 0) := by
    rw [hdiv, hBS]
    rw [hBS] at hk
    split <;> omega
  have hal : allocLoop (toInt32 (accepted / BLOCK_SIZE)
        + (if accepted % BLOCK_SIZE ≠ 0 then 1 else 0)) (DISK_BLOCKS + 1)
        (s.fatTable (s.file_descriptors fildes.toNat).fatNum) s.block_bitmap
      = (s.fatTable (s.file_descriptors fildes.toNat).fatNum, s.block_bitmap) := by
    rw [allocLoop, if_neg hneed]
  unfold fs_write
  simp only [hfd, Bool.false_eq_true, if_false, hclamp, hal]
  generalize seekBlock (s.file_descriptors fildes.toNat).offset
    (s.file_descriptors fildes.toNat).offset 0 = sk
  obtain ⟨file_offset, block_idx⟩ := sk
  dsimp only
  generalize writeLoop buf (s.fatTable (s.file_descriptors fildes.toNat).fatNum) _ _ _ _ _ _ = wl
  obtain ⟨ok, d, v⟩ := wl
  cases ok <;> simp [setAt]

/-! ## C21: `fd_count` and the occupied descriptor slots -/

theorem countP_range_flip (f g : Nat → Bool) (n i : Nat) (hi : i < n)
    (hf : f i = false) (hg : g i = true) (hother : ∀ j, j ≠ i → g j = f j) :
    (List.range n).countP g = (List.range n).countP f + 1 := by
  induction n with
  | zero => omega
  | succ n ih =>
    rw [List.range_succ, List.countP_append, List.countP_append]
    by_cases hin : i = n
    · subst hin
      have hsame : (List.range i).countP g = (List.range i).countP f := by
        apply List.countP_congr
        intro x hx
        have hxi : x ≠ i := by
          have := List.mem_range.1 hx
          omega
        rw [hother x hxi]
      rw [hsame]
      simp [List.countP_cons, hf, hg]
    · have hlt : i < n := by omega
      rw [ih hlt]
      have hn : g n = f n := hother n (fun h => hin h.symm)
      simp only [List.countP_cons, List.countP_nil, hn]
      omega

/-- Within one mount `fs_open` keeps `fd_count` equal to the number of
occupied descriptor slots. -/
theorem fs_open_keeps_fd_count (s : FS) (name : String)
    (h : s.fd_count = (occupiedCount s : Int)) :
    (fs_open s name).2.fd_count = (occupiedCount (fs_open s name).2 : Int) := by
  unfold fs_open
  dsimp only
  split
  · exact h
  · split
    · exact h
    · split
      · exact h
      · rename_i hne
        have hle := scanFrom_le (fun i => !(s.file_descriptors i).occupodo) 32 0
        have hlt : scanFrom (fun i => !(s.file_descriptors i).occupodo) 32 0 < 32 := by omega
        have hfree := scanFrom_found (fun i => !(s.file_descriptors i).occupodo) 32 0
          (by omega)
        simp only [Bool.not_eq_true'] at hfree
        have hflip := countP_range_flip
          (fun i => (s.file_descriptors i).occupodo)
          (fun i => ((setAt s.file_descriptors
            (scanFrom (fun i => !(s.file_descriptors i).occupodo) 32 0)
            { occupodo := true,
              fatNum := (s.directory_entry_table (findName s name)).fatNum,
              offset := 0 }) i).occupodo)
          32 _ hlt hfree (by simp [setAt]) (by intro j hj; simp [setAt, hj])
        show s.fd_count + 1 = ((List.countP _ (List.range 32) : Nat) : Int)
        rw [hflip, h]
        simp [occupiedCount]

/-- Within one mount `fs_close` keeps `fd_count` equal to the number of
occupied descriptor slots. -/
theorem fs_close_keeps_fd_count (s : FS) (fildes : Int)
    (h : s.fd_count = (occupiedCount s : Int)) :
    (fs_close s fildes).2.fd_count = (occupiedCount (fs_close s fildes).2 : Int) := by
  unfold fs_close
  split
  · exact h
  · rename_i hb
    have hb2 : badFd s fildes = false := by simpa using hb
    have hv := (badFd_eq_false_iff s fildes).1 hb2
    have hfl : fildes.toNat < 32 := by omega
    have hflip := countP_range_flip
      (fun i => ((setAt s.file_descriptors fildes.toNat
        { s.file_descriptors fildes.toNat with occupodo := false }) i).occupodo)
      (fun i => (s.file_descriptors i).occupodo)
      32 _ hfl (by simp [setAt]) hv.2.2 (by intro j hj; simp [setAt, hj])
    show s.fd_count - 1 = ((List.countP _ (List.range 32) : Nat) : Int)
    have hc : occupiedCount s = List.countP (fun i => (s.file_descriptors i).occupodo)
        (List.range 32) := rfl
    rw [h, hc, hflip]
    simp

/-- While `fd_count` equals the number of occupied slots, `fs_open` of an
existing name returns a descriptor whenever fewer than 32 slots are
occupied. -/
theorem fs_open_succeeds_below_32 (s : FS) (name : String)
    (h : s.fd_count = (occupiedCount s : Int)) (hname : findName s name ≠ 64)
    (hroom : occupiedCount s < 32) :
    0 ≤ (fs_open s name).1 ∧ (fs_open s name).1 < 32 := by
  have hc : ¬ s.fd_count ≥ 32 := by rw [h]; omega
  have hslot : ¬ scanFrom (fun i => !(s.file_descriptors i).occupodo) 32 0 = 32 := by
    intro hfull
    have hall := (freeSlotScan_eq_end_iff (fun i => (s.file_descriptors i).occupodo) 32).1 hfull
    have : occupiedCount s = 32 := by
      unfold occupiedCount
      have := (List.countP_eq_length (p := fun i => (s.file_descriptors i).occupodo)
        (l := List.range 32)).2 (by intro a ha; exact hall a (List.mem_range.1 ha))
      simpa using this
    omega
  have hle := scanFrom_le (fun i => !(s.file_descriptors i).occupodo) 32 0
  simp only [fs_open, if_neg hname, if_neg hc, if_neg hslot]
  omega

/-- C21 at the failing input: after `fs_create("a.txt")` and 32 calls of
`fs_open("a.txt")` the counter `fd_count` is 32 and 32 slots are occupied;
after `umount_fs` and `mount_fs` no slot is occupied and the entry `"a.txt"`
is still there, but `fd_count` is still 32 and `fs_open("a.txt")` returns
-1. -/
theorem fd_count_survives_remount :
    opened32.fd_count = 32
    ∧ occupiedCount opened32 = 32
    ∧ occupiedCount remounted32 = 0
    ∧ remounted32.fd_count = 32
    ∧ (remounted32.directory_entry_table 0).occupodo = true
    ∧ (remounted32.directory_entry_table 0).name = "a.txt"
    ∧ (fs_open remounted32 "a.txt").1 = -1 := by
  decide!

/-! ## C7: a fresh mount after a descriptor was left open -/

/-- C7 at the failing input: a process creates and opens `"a.txt"`
(`fd_count` becomes 1), unmounts with the descriptor still open, then formats
and mounts anew.  On this fresh mount no descriptor slot is occupied and the
64 names of `names64` are all created (every call returns 0); after
`fs_create("a.txt")` the first 31 calls of `fs_open("a.txt")` return 0, ..., 30
and the 32nd returns -1, with 31 slots occupied. -/
theorem fresh_mount_refuses_32nd_open :
    openedFS.fd_count = 1
    ∧ occupiedCount leakedMount = 0
    ∧ (createAll leakedMount names64).1 = List.replicate 64 0
    ∧ (fs_create leakedMount "a.txt").1 = 0
    ∧ (openMany (fs_create leakedMount "a.txt").2 "a.txt" 32).1
        = (List.range 31).map Int.ofNat ++ [-1]
    ∧ occupiedCount (openMany (fs_create leakedMount "a.txt").2 "a.txt" 32).2 = 31 := by
  decide!

end FileSystem
